import Mathlib

/-!
Verification of the PyMerge reshape-then-bin pipeline (`src/bin/helpers.py`,
`config.py`) against its natural-language specification.

The two pipeline functions `melt_activity_data` and `bin_data` are embedded
shallowly.  A pandas `DataFrame` is modelled as a `Table`: an ordered header of
column names plus rows of cells.  A cell is either missing (`na`, covering
`NaN`/`None`/`NaT`), a rational number (`num`), a naive timestamp measured in
whole minutes since the epoch (`time`), or an uninterpreted string (`str`).
`pd.to_datetime(..., errors="coerce")` is modelled by `coerceTime`: cells that
are already calendar instants (`time`) survive, everything else coerces to
missing.  (The pandas corner case of interpreting raw numbers as epoch
nanoseconds is not exercised by any claim and is not modelled.)

Python exceptions are modelled by `Except PyErr`: `PyErr.keyError` is the
pandas `KeyError` (the specification's `SchemaError`), `PyErr.valueError` is
the `ValueError` raised for an interval string without digits (the
specification's `InvalidIntervalError`), and `PyErr.zeroFreq` stands for the
error pandas raises when `dt.floor` is given a zero-width frequency.

Because both source functions assign into their argument (`df[TIME_COLUMN] =
...`, `df["Bin"] = ...`), each embedded function returns the pair
`(result, final state of the input table)`, making the in-place mutation of
the input observable.
-/

namespace PyMerge

/-- A single pandas cell: missing (`NaN`/`None`/`NaT`), a rational number, a
naive timestamp in whole minutes since the epoch, or an uninterpreted string. -/
inductive Cell where
  | na : Cell
  | num (q : ℚ) : Cell
  | time (t : ℤ) : Cell
  | str (s : String) : Cell
deriving DecidableEq, Repr

/-- Python-level exceptions surfaced by the two pipeline functions. -/
inductive PyErr where
  | keyError (k : String)
  | valueError (msg : String)
  | zeroFreq
deriving DecidableEq, Repr

/-- A pandas `DataFrame`: a header of column names plus rows of cells.
Rows are kept positionally aligned with the header. -/
structure Table where
  header : List String
  rows : List (List Cell)
deriving DecidableEq, Repr

instance {ε α : Type} [DecidableEq ε] [DecidableEq α] : DecidableEq (Except ε α) := fun x y =>
  match x, y with
  | .error e, .error f => decidable_of_iff (e = f) (by simp)
  | .error _, .ok _ => isFalse (fun h => Except.noConfusion h)
  | .ok _, .error _ => isFalse (fun h => Except.noConfusion h)
  | .ok a, .ok b => decidable_of_iff (a = b) (by simp)

/-- Cell of a row at a column position (missing when out of range). -/
def cellAt (r : List Cell) (i : Nat) : Cell := r.getD i Cell.na

/-- `config.TIME_COLUMN`. -/
def TIME_COLUMN : String := "Time"

/-- `config.DELINEATING_COL`. -/
def DELINEATING_COL : String := "Dataset"

/-- Position of the first occurrence of a column name in a header (pandas
label lookup). -/
def idxOf? (name : String) : List String → Option Nat
  | [] => none
  | h :: t => if h = name then some 0 else (idxOf? name t).map (· + 1)

/-- `row[name]`: positional lookup through the header, `KeyError` when the
column is absent. -/
def Table.cell (tb : Table) (r : List Cell) (name : String) : Except PyErr Cell :=
  match idxOf? name tb.header with
  | some i => .ok (cellAt r i)
  | none => .error (.keyError name)

/-- `row.get(name, None)`: missing when the column is absent. -/
def Table.cellGet (tb : Table) (r : List Cell) (name : String) : Cell :=
  match idxOf? name tb.header with
  | some i => cellAt r i
  | none => Cell.na

/-- `df[name] = vals`: overwrite the column when present, append it otherwise. -/
def Table.setCol (tb : Table) (name : String) (vals : List Cell) : Table :=
  match idxOf? name tb.header with
  | some i => { header := tb.header, rows := (tb.rows.zip vals).map (fun rv => rv.1.set i rv.2) }
  | none => { header := tb.header ++ [name], rows := (tb.rows.zip vals).map (fun rv => rv.1 ++ [rv.2]) }

/-- `df[name]` as a list of cells (empty when the column is absent; the
pipeline only reads columns it has checked for). -/
def Table.colD (tb : Table) (name : String) : List Cell :=
  match idxOf? name tb.header with
  | some i => tb.rows.map (fun r => cellAt r i)
  | none => []

/-- `pd.to_datetime(x, errors="coerce", utc=True).dt.tz_convert(None)` on one
cell: parseable calendar instants (modelled as `time` cells) survive,
everything else becomes missing (`NaT`). -/
def coerceTime : Cell → Cell
  | .time t => .time t
  | _ => .na

/-- Overwrite the cell at position `ti` of every row with its coerced form. -/
def coerceRows (rows : List (List Cell)) (ti : Nat) : List (List Cell) :=
  rows.map (fun r => r.set ti (coerceTime (cellAt r ti)))

/-- `df[TIME_COLUMN] = pd.to_datetime(df[TIME_COLUMN], errors="coerce", ...)`:
reading the column raises `KeyError` when it is absent, otherwise the input
table's timestamp column is overwritten with the coerced values. -/
def coerceTimeCol (df : Table) : Except PyErr Table :=
  match idxOf? TIME_COLUMN df.header with
  | some i => .ok { header := df.header, rows := coerceRows df.rows i }
  | none => .error (.keyError TIME_COLUMN)

/-- Ordering tag used to compare cells of different kinds (numbers, instants
and strings never mix in one sort key in practice; missing sorts last, the
pandas `na_position="last"` behaviour). -/
def Cell.tag : Cell → Nat
  | .num _ => 0
  | .time _ => 1
  | .str _ => 2
  | .na => 3

/-- Total comparison of cells: within one kind the natural order, across kinds
by tag, missing last. -/
def cellLe (a b : Cell) : Bool :=
  match a, b with
  | .num x, .num y => decide (x ≤ y)
  | .time x, .time y => decide (x ≤ y)
  | .str x, .str y => decide (x ≤ y)
  | _, _ => decide (a.tag ≤ b.tag)

/-- Lexicographic comparison of `(device, second key)` pairs. -/
def pairLe (a b : Cell × Cell) : Bool :=
  if a.1 = b.1 then cellLe a.2 b.2 else cellLe a.1 b.1

/-- Insertion of one element into a list ahead of the first element it
compares at-or-below. -/
def insertLe {α : Type} (le : α → α → Bool) (a : α) : List α → List α
  | [] => [a]
  | b :: l => if le a b then a :: b :: l else b :: insertLe le a l

/-- Insertion sort by a Boolean comparison: the model of the pandas sorts
(`sort_values`, sorted group keys), which only promise the resulting order. -/
def sortBy {α : Type} (le : α → α → Bool) : List α → List α
  | [] => []
  | a :: l => insertLe le a (sortBy le l)

/-- `Except`-valued `map` over a list, failing at the first error. -/
def exceptMapM {α β : Type} (f : α → Except PyErr β) : List α → Except PyErr (List β)
  | [] => .ok []
  | a :: as =>
      match f a with
      | .error e => .error e
      | .ok b =>
          match exceptMapM f as with
          | .error e => .error e
          | .ok bs => .ok (b :: bs)

/-- `re.match(r"Act\[\d+]", col)`: the column name starts with `Act[`, one or
more digits, and `]` (a prefix match, trailing characters allowed). -/
def isActCol (s : String) : Bool :=
  match s.data with
  | 'A' :: 'c' :: 't' :: '[' :: rest =>
      let ds := rest.takeWhile Char.isDigit
      !ds.isEmpty && ((rest.drop ds.length).headD ' ' == ']')
  | _ => false

/-- The positional activity column name `Act[i]`. -/
def actName (i : Nat) : String := "Act[" ++ toString i ++ "]"

/-- `base_time - pd.Timedelta(minutes=offset)`; `NaT` propagates. -/
def subMinutes (c : Cell) (m : Nat) : Cell :=
  match c with
  | .time t => .time (t - m)
  | _ => .na

/-- The group keys produced by `df.groupby(col)`: distinct non-missing key
values, in sorted order (`sort=True`, `dropna=True` defaults). -/
def validKeys (rows : List (List Cell)) (i : Nat) : List Cell :=
  sortBy cellLe ((rows.map (fun r => cellAt r i)).filter (fun c => c != Cell.na)).dedup

/-- Header of the melted frame: the literal key order of the `new_row` dict in
`melt_activity_data`. -/
def meltHeader : List String := [DELINEATING_COL, "Time", "Act", "T", "Light", "Vbat"]

/-- One wide row expanded into `K` per-minute rows: slot `offset` contributes
`{device key, base time - offset minutes, Act[offset], T, Light, Vbat}`.
The `Act[offset]` lookup is a plain indexing (`KeyError` when absent), the
environmental lookups use `row.get(..., None)`. -/
def expandRow (df : Table) (ti : Nat) (k : Cell) (K : Nat) (r : List Cell) :
    Except PyErr (List (List Cell)) :=
  exceptMapM (fun off =>
      match df.cell r (actName off) with
      | .error e => .error e
      | .ok act => .ok [k, subMinutes (cellAt r ti) off, act,
          df.cellGet r "T", df.cellGet r "Light", df.cellGet r "Vbat"])
    (List.range K)

/-- Sort key of `melted_df.sort_values(by=[DELINEATING_COL, "Time"])`:
device first, then time (positions 0 and 1 of `meltHeader`). -/
def meltRowLe (r1 r2 : List Cell) : Bool :=
  pairLe (cellAt r1 0, cellAt r1 1) (cellAt r2 0, cellAt r2 1)

/-- `melt_activity_data(df)` from `src/bin/helpers.py`, returning the melted
frame together with the final state of the input table (whose timestamp column
the function overwrites in place).  Matches the source step for step:
activity columns are those matching `Act\[\d+]`; the timestamp column is
coerced in place; rows are grouped by the delineating column (sorted distinct
non-missing keys, original row order inside a group); each row emits one
record per slot offset; an entirely empty expansion leaves a frame with no
columns, so the subsequent `dropna(subset=["Act"])` raises `KeyError`;
otherwise rows with a missing activity value are dropped and the result is
sorted by (device, time). -/
def melt_activity_data (df : Table) : Except PyErr (Table × Table) :=
  let K := (df.header.filter isActCol).length
  match coerceTimeCol df with
  | .error e => .error e
  | .ok df' =>
    match idxOf? DELINEATING_COL df'.header with
    | none => .error (.keyError DELINEATING_COL)
    | some di =>
      let ti := (idxOf? TIME_COLUMN df'.header).getD 0
      match exceptMapM
          (fun k =>
            match exceptMapM (expandRow df' ti k K)
                (df'.rows.filter (fun r => cellAt r di == k)) with
            | .error e => .error e
            | .ok ex => .ok ex.flatten)
          (validKeys df'.rows di) with
      | .error e => .error e
      | .ok grouped =>
        let meltedRows := grouped.flatten
        if meltedRows.isEmpty then
          .error (.keyError "Act")
        else
          let kept := meltedRows.filter (fun r => cellAt r 2 != Cell.na)
          .ok ({ header := meltHeader, rows := sortBy meltRowLe kept }, df')

/-- Numeric value of a digit run. -/
def digitsValue (cs : List Char) : Nat :=
  cs.foldl (fun n c => n * 10 + (c.toNat - 48)) 0

/-- `re.search(r"(\d+)", s)`: the first maximal digit run found anywhere in
the string, scanning left to right. -/
def findDigits : List Char → Option (List Char)
  | [] => none
  | c :: rest =>
      if c.isDigit then some (c :: rest.takeWhile Char.isDigit)
      else findDigits rest

/-- The magnitude `bin_data` parses out of the interval string: the first
unsigned digit run, anywhere in the string; `none` when the string has no
digit (the `ValueError` branch).  `int(float(...))` of a digit run is its
numeric value. -/
def parseMagnitude (s : String) : Option Nat :=
  (findDigits s.data).map digitsValue

/-- Substring containment on character lists (`"day" in interval`). -/
def hasInfixChars (s pat : List Char) : Bool :=
  pat.isPrefixOf s ||
    match s with
    | [] => false
    | _ :: t => hasInfixChars t pat

/-- The flooring unit chosen by `bin_data`, in minutes: any interval string
containing `"day"` floors in days, else one containing `"hour"` in hours, and
every other string (units recognised or not) in minutes. -/
def unitMinutes (interval : String) : Nat :=
  if hasInfixChars interval.data "day".data then 1440
  else if hasInfixChars interval.data "hour".data then 60
  else 1

/-- Floor of `t` to a multiple of `i` (toward minus infinity for `0 < i`,
which is Python's `//`; Lean's `Int` division is Euclidean and agrees with
floor division for a positive divisor). -/
def floorInt (i t : ℤ) : ℤ := t / i * i

/-- `dt.floor` on one cell: instants floor to the containing bin start,
`NaT` stays missing. -/
def floorCell (i : ℤ) : Cell → Cell
  | .time t => .time (floorInt i t)
  | _ => .na

/-- One aggregation rule of the schedule (`SELECTED_COLUMNS` entry with the
`cfg.get` defaults already resolved): output column name, source columns,
summary method. -/
structure Rule where
  name : String
  columns : List String
  summarize : String
deriving DecidableEq, Repr

/-- `config.SELECTED_COLUMNS`, in its configured order. -/
def SELECTED_COLUMNS : List Rule :=
  [⟨"Raw Score", ["Act"], "mean"⟩,
   ⟨"Percent Score", ["Act"], "act_percent"⟩,
   ⟨"Temperature", ["T"], "mean"⟩,
   ⟨"Light", ["Light"], "mean"⟩,
   ⟨"Battery Voltage", ["Vbat"], "mean"⟩]

/-- Positions of the rule's source columns in the header, `KeyError` at the
first absent one (`subdf[cols]`). -/
def colIdxs (hdr : List String) (cols : List String) : Except PyErr (List Nat) :=
  exceptMapM
    (fun c => match idxOf? c hdr with
      | some i => .ok i
      | none => .error (.keyError c))
    cols

/-- `subdf[cols].to_numpy().ravel()` followed by the NaN drop: all cells of
the group's rows across the source columns, row-major, keeping the numeric
ones. -/
def groupVals (idxs : List Nat) (grp : List (List Cell)) : List ℚ :=
  (grp.flatMap (fun r => idxs.map (fun i => cellAt r i))).filterMap
    (fun c => match c with | .num q => some q | _ => none)

/-- Arithmetic mean of a list of rationals. -/
def meanQ (vals : List ℚ) : ℚ := vals.sum / (vals.length : ℚ)

/-- The body of `agg_func` after the NaN drop: an empty group yields missing
for every summary method (the `vals.size == 0` guard precedes all of them,
`sum` included); otherwise `sum`, `max`, `min`, `act_percent` (mean scaled by
`*50+50`), and a fallback to `mean` for every other name. -/
def applyAgg (summarize : String) (vals : List ℚ) : Cell :=
  match vals with
  | [] => .na
  | v :: vs =>
      if summarize = "sum" then .num (v :: vs).sum
      else if summarize = "max" then .num (vs.foldl max v)
      else if summarize = "min" then .num (vs.foldl min v)
      else if summarize = "act_percent" then .num (meanQ (v :: vs) * 50 + 50)
      else .num (meanQ (v :: vs))

/-- `df.groupby([DELINEATING_COL, "Bin"])` keys: distinct pairs with both
components non-missing, sorted. -/
def validPairs (rows : List (List Cell)) (di bi : Nat) : List (Cell × Cell) :=
  sortBy pairLe ((rows.map (fun r => (cellAt r di, cellAt r bi))).filter
      (fun p => p.1 != Cell.na && p.2 != Cell.na)).dedup

/-- One rule's summary table: group the binned frame by `(device, bin)`,
apply `agg_func` to every group, `reset_index`, and rename the value column
to the rule's output name — giving header `[DELINEATING_COL, "Bin", name]`.
The source-column lookup happens inside `agg_func`, so an absent source
column only raises once at least one group exists. -/
def ruleTable (df : Table) (rule : Rule) : Except PyErr Table :=
  match idxOf? DELINEATING_COL df.header with
  | none => .error (.keyError DELINEATING_COL)
  | some di =>
    let bi := (idxOf? "Bin" df.header).getD 0
    match exceptMapM
        (fun p =>
          match colIdxs df.header rule.columns with
          | .error e => .error e
          | .ok idxs => .ok [p.1, p.2, applyAgg rule.summarize
              (groupVals idxs
                (df.rows.filter (fun r => cellAt r di == p.1 && cellAt r bi == p.2)))])
        (validPairs df.rows di bi) with
    | .error e => .error e
    | .ok rows => .ok { header := [DELINEATING_COL, "Bin", rule.name], rows := rows }

/-- `left.merge(right, on=[DELINEATING_COL, "Bin"], how="left")`: every left
row is paired with each right row sharing its key (right non-key cells
appended), or padded with missing when none matches; non-key column names
occurring on both sides get the pandas `_x`/`_y` suffixes. -/
def mergeLeftOn (l r : Table) : Table :=
  let li1 := (idxOf? DELINEATING_COL l.header).getD 0
  let li2 := (idxOf? "Bin" l.header).getD 0
  let ri1 := (idxOf? DELINEATING_COL r.header).getD 0
  let ri2 := (idxOf? "Bin" r.header).getD 0
  let rNonKey := (List.range r.header.length).filter (fun i => i != ri1 && i != ri2)
  let lNonKeyNames := ((List.range l.header.length).filter
      (fun i => i != li1 && i != li2)).map (fun i => l.header.getD i "")
  let rNonKeyNames := rNonKey.map (fun i => r.header.getD i "")
  let overlap := lNonKeyNames.filter (fun n => rNonKeyNames.contains n)
  let lHdr := (List.range l.header.length).map (fun i =>
      let n := l.header.getD i ""
      if i != li1 && i != li2 && overlap.contains n then n ++ "_x" else n)
  let rHdr := rNonKeyNames.map (fun n => if overlap.contains n then n ++ "_y" else n)
  let rows := l.rows.flatMap (fun lr =>
      let ms := r.rows.filter (fun rr =>
        cellAt lr li1 == cellAt rr ri1 && cellAt lr li2 == cellAt rr ri2)
      if ms.isEmpty then [lr ++ rNonKey.map (fun _ => Cell.na)]
      else ms.map (fun rr => lr ++ rNonKey.map (fun i => cellAt rr i)))
  { header := lHdr ++ rHdr, rows := rows }

/-- `bin_data(df, interval)` from `src/bin/helpers.py`, with the process-wide
`SELECTED_COLUMNS` made an explicit `schedule` argument (the specification
treats the schedule as externally supplied data).  Returns the binned frame
together with the final state of the input table, which the function mutates:
the timestamp column is overwritten with its coerced values and a `Bin`
column is written in.  Matches the source step for step: the digit-run search
raises `ValueError` when the interval has no digit; timestamps are coerced and
floored (`dt.floor` of a zero-width frequency fails inside pandas); one
summary table per rule; the tables are left-merged on `(device, Bin)`; with an
empty schedule the output is a copy of the (mutated) input; finally every
`Bin` header label is renamed to the timestamp column's name. -/
def bin_data (df : Table) (interval : String) (schedule : List Rule) :
    Except PyErr (Table × Table) :=
  match parseMagnitude interval with
  | none => .error (.valueError ("Invalid interval format: " ++ interval))
  | some mag =>
    match coerceTimeCol df with
    | .error e => .error e
    | .ok df1 =>
      let iMin : ℤ := (mag * unitMinutes interval : Nat)
      if iMin = 0 then .error .zeroFreq
      else
        let ti := (idxOf? TIME_COLUMN df1.header).getD 0
        let df2 := df1.setCol "Bin" (df1.rows.map (fun r => floorCell iMin (cellAt r ti)))
        match exceptMapM (ruleTable df2) schedule with
        | .error e => .error e
        | .ok summary =>
          let out := match summary with
            | [] => df2
            | s0 :: rest => rest.foldl mergeLeftOn s0
          .ok ({ header := out.header.map (fun n => if n == "Bin" then TIME_COLUMN else n),
                 rows := out.rows }, df2)

/-- `melt_then_bin(df, interval)`: the two stages composed; the mutated table
threaded into the Binner is the Reshaper's fresh output. -/
def melt_then_bin (df : Table) (interval : String) (schedule : List Rule) :
    Except PyErr (Table × Table) :=
  match melt_activity_data df with
  | .error e => .error e
  | .ok m => bin_data m.1 interval schedule

/-! Derived forms used to state the claims. -/

/-- The input table after the in-place timestamp coercion (total form; equals
what `coerceTimeCol` returns when the timestamp column is present). -/
def coerceTableD (df : Table) : Table :=
  { header := df.header,
    rows := coerceRows df.rows ((idxOf? TIME_COLUMN df.header).getD 0) }

/-- One derived row of the Reshaper, by the specification: for slot `i`,
the device identifier, `derived_time = timestamp - i minutes`, slot `i`'s
activity sample, and the instantaneous fields carried verbatim. -/
def mkDerivedRow (df : Table) (r : List Cell) (i : Nat) : List Cell :=
  [df.cellGet r DELINEATING_COL, subMinutes (df.cellGet r TIME_COLUMN) i,
   df.cellGet r (actName i), df.cellGet r "T", df.cellGet r "Light", df.cellGet r "Vbat"]

/-- All `K` derived rows of one wide record. -/
def expandAll (cdf : Table) (K : Nat) (r : List Cell) : List (List Cell) :=
  (List.range K).map (mkDerivedRow cdf r)

/-- The Reshaper's long table by the specification, as a list of rows before
the final sort: every wide record belonging to a device group (one with a
non-missing device key) emits one derived row per slot `0 ≤ i < K`, and rows
whose activity value is missing are dropped. -/
def specLongRows (cdf : Table) (K : Nat) : List (List Cell) :=
  ((cdf.rows.filter (fun r => cdf.cellGet r DELINEATING_COL != Cell.na)).flatMap
      (fun r => (List.range K).map (mkDerivedRow cdf r))).filter
    (fun out => cellAt out 2 != Cell.na)

/-- The distinct `(device, bin)` pairs of a binned frame, through the header. -/
def binPairs (df2 : Table) : List (Cell × Cell) :=
  validPairs df2.rows ((idxOf? DELINEATING_COL df2.header).getD 0)
    ((idxOf? "Bin" df2.header).getD 0)

/-- The Binner's input table after its in-place mutation: timestamp column
coerced, `Bin` column written (the interval floor of each row's coerced
timestamp). -/
def binnedInput (df : Table) (interval : String) (mag : Nat) : Table :=
  (coerceTableD df).setCol "Bin" ((coerceTableD df).rows.map
    (fun r => floorCell ((mag * unitMinutes interval : Nat) : ℤ)
      (cellAt r ((idxOf? TIME_COLUMN df.header).getD 0))))

/-- The value `agg_func` computes for one rule at one `(device, bin)` group
of the binned frame. -/
def ruleRowVal (df2 : Table) (di bi : Nat) (rule : Rule) (p : Cell × Cell) : Cell :=
  applyAgg rule.summarize (groupVals
    (rule.columns.map (fun c => (idxOf? c df2.header).getD 0))
    (df2.rows.filter (fun r => cellAt r di == p.1 && cellAt r bi == p.2)))

/-- A concrete wide table: two devices, two activity slots. -/
def wideTblEx : Table :=
  { header := ["Dataset", "Time", "Act[0]", "Act[1]"],
    rows := [[Cell.str "B", Cell.time 20, Cell.num 2, Cell.num 3],
             [Cell.str "A", Cell.time 10, Cell.num 1, Cell.na]] }

/-- A concrete long table: one device, minutes 607 (10:07) and 615 (10:15). -/
def binTblEx : Table :=
  { header := ["Dataset", "Time", "Act"],
    rows := [[Cell.str "A", Cell.time 607, Cell.num 1],
             [Cell.str "A", Cell.time 615, Cell.num 2]] }

/-- A concrete wide table whose timestamp value is malformed. -/
def garbageTblEx : Table :=
  { header := ["Dataset", "Time", "Act[0]"],
    rows := [[Cell.str "A", Cell.str "garbage", Cell.num 1]] }

/-- Device keys of a long-format row list (column 0 of the melted layout),
used to state that devices are never interleaved: any two rows with the same
device key have only that key between them. -/
def noInterleave (rows : List (List Cell)) : Prop :=
  ∀ i j k : Nat, i < j → j < k → k < rows.length →
    cellAt (rows.getD i []) 0 = cellAt (rows.getD k []) 0 →
    cellAt (rows.getD j []) 0 = cellAt (rows.getD i []) 0

/-! ### Header lookup and cell access -/

theorem idxOf?_lt_length {n : String} :
    ∀ {l : List String} {i : Nat}, idxOf? n l = some i → i < l.length := by
  intro l
  induction l with
  | nil => intro i h; simp [idxOf?] at h
  | cons a t ih =>
    intro i h
    by_cases ha : a = n
    · simp [idxOf?, ha] at h
      simp [List.length_cons]
      omega
    · simp only [idxOf?, if_neg ha, Option.map_eq_some'] at h
      obtain ⟨j, hj, rfl⟩ := h
      have := ih hj
      simp only [List.length_cons]
      omega

theorem idxOf?_getD {n : String} :
    ∀ {l : List String} {i : Nat}, idxOf? n l = some i → l.getD i "" = n := by
  intro l
  induction l with
  | nil => intro i h; simp [idxOf?] at h
  | cons a t ih =>
    intro i h
    by_cases ha : a = n
    · simp [idxOf?, ha] at h
      subst h
      simpa using ha
    · simp only [idxOf?, if_neg ha, Option.map_eq_some'] at h
      obtain ⟨j, hj, rfl⟩ := h
      simpa using ih hj

theorem idxOf?_eq_none_iff {n : String} {l : List String} :
    idxOf? n l = none ↔ n ∉ l := by
  induction l with
  | nil => simp [idxOf?]
  | cons a t ih =>
    by_cases ha : a = n
    · simp [idxOf?, ha]
    · simp [idxOf?, ha, ih, Ne.symm ha]

theorem idxOf?_isSome_of_mem {n : String} {l : List String} (h : n ∈ l) :
    ∃ i, idxOf? n l = some i := by
  cases hi : idxOf? n l with
  | none => exact absurd (idxOf?_eq_none_iff.mp hi) (by simpa using h)
  | some i => exact ⟨i, rfl⟩

theorem idxOf?_ne {a b : String} {l : List String} {i j : Nat}
    (ha : idxOf? a l = some i) (hb : idxOf? b l = some j) (hab : a ≠ b) : i ≠ j := by
  intro hij
  subst hij
  exact hab ((idxOf?_getD ha).symm.trans (idxOf?_getD hb))

theorem cellAt_set_ne {r : List Cell} {i j : Nat} {v : Cell} (h : i ≠ j) :
    cellAt (r.set i v) j = cellAt r j := by
  simp [cellAt, List.getD_eq_getElem?_getD, List.getElem?_set_ne h]

theorem cellAt_set_self {r : List Cell} {i : Nat} {v : Cell} (h : i < r.length) :
    cellAt (r.set i v) i = v := by
  simp [cellAt, List.getD_eq_getElem?_getD, List.getElem?_set_self h]

theorem cellAt_append_lt {r s : List Cell} {i : Nat} (h : i < r.length) :
    cellAt (r ++ s) i = cellAt r i := by
  simp [cellAt, List.getD_eq_getElem?_getD, List.getElem?_append_left h]

theorem cellAt_append_len {r : List Cell} {v : Cell} :
    cellAt (r ++ [v]) r.length = v := by
  simp [cellAt, List.getD_eq_getElem?_getD, List.getElem?_concat_length]

theorem cellAt_cons_zero {v : Cell} {r : List Cell} : cellAt (v :: r) 0 = v := rfl

theorem cellAt_cons_one {v w : Cell} {r : List Cell} : cellAt (v :: w :: r) 1 = w := rfl

theorem cellGet_eq_cellAt {tb : Table} {name : String} {i : Nat}
    (h : idxOf? name tb.header = some i) (r : List Cell) :
    tb.cellGet r name = cellAt r i := by
  simp [Table.cellGet, h]

theorem cell_eq_ok {tb : Table} {name : String} {i : Nat}
    (h : idxOf? name tb.header = some i) (r : List Cell) :
    tb.cell r name = .ok (cellAt r i) := by
  simp [Table.cell, h]

/-! ### `exceptMapM` -/

theorem exceptMapM_ok_of {α β : Type} (f : α → Except PyErr β) (g : α → β) :
    ∀ (l : List α), (∀ a ∈ l, f a = .ok (g a)) → exceptMapM f l = .ok (l.map g) := by
  intro l
  induction l with
  | nil => intro _; rfl
  | cons a t ih =>
    intro h
    have ha := h a (List.mem_cons_self a t)
    have ht := ih (fun x hx => h x (List.mem_cons_of_mem a hx))
    simp [exceptMapM, ha, ht]

/-! ### The cell ordering -/

theorem cellLe_refl (a : Cell) : cellLe a a = true := by
  cases a <;> simp [cellLe]

theorem cellLe_trans {a b c : Cell} (h1 : cellLe a b = true) (h2 : cellLe b c = true) :
    cellLe a c = true := by
  cases a <;> cases b <;> cases c <;>
    simp only [cellLe, Cell.tag, decide_eq_true_eq] at h1 h2 ⊢ <;>
    first
      | omega
      | exact le_trans h1 h2

theorem cellLe_total (a b : Cell) : (cellLe a b || cellLe b a) = true := by
  cases a <;> cases b <;>
    simp only [cellLe, Cell.tag, Bool.or_eq_true, decide_eq_true_eq] <;>
    exact le_total _ _

theorem cellLe_antisymm {a b : Cell} (h1 : cellLe a b = true) (h2 : cellLe b a = true) :
    a = b := by
  cases a <;> cases b <;>
    simp only [cellLe, Cell.tag, decide_eq_true_eq] at h1 h2 <;>
    first
      | rfl
      | omega
      | exact congrArg _ (le_antisymm h1 h2)

theorem pairLe_trans {a b c : Cell × Cell} (h1 : pairLe a b = true) (h2 : pairLe b c = true) :
    pairLe a c = true := by
  unfold pairLe at h1 h2 ⊢
  by_cases hab : a.1 = b.1
  · by_cases hbc : b.1 = c.1
    · rw [if_pos hab] at h1
      rw [if_pos hbc] at h2
      rw [if_pos (hab.trans hbc)]
      exact cellLe_trans h1 h2
    · rw [if_pos hab] at h1
      rw [if_neg hbc] at h2
      rw [hab, if_neg hbc]
      exact h2
  · by_cases hbc : b.1 = c.1
    · rw [if_neg hab] at h1
      rw [← hbc, if_neg hab]
      exact h1
    · rw [if_neg hab] at h1
      rw [if_neg hbc] at h2
      by_cases hac : a.1 = c.1
      · have h2' : cellLe b.1 a.1 = true := by rw [hac]; exact h2
        exact absurd (cellLe_antisymm h1 h2') hab
      · rw [if_neg hac]
        exact cellLe_trans h1 h2

theorem pairLe_total (a b : Cell × Cell) : (pairLe a b || pairLe b a) = true := by
  unfold pairLe
  by_cases hab : a.1 = b.1
  · rw [if_pos hab, if_pos hab.symm]
    exact cellLe_total a.2 b.2
  · rw [if_neg hab, if_neg (fun h => hab h.symm)]
    exact cellLe_total a.1 b.1

theorem meltRowLe_trans {a b c : List Cell} (h1 : meltRowLe a b = true)
    (h2 : meltRowLe b c = true) : meltRowLe a c = true :=
  pairLe_trans h1 h2

theorem meltRowLe_total (a b : List Cell) : (meltRowLe a b || meltRowLe b a) = true :=
  pairLe_total _ _

/-! ### The insertion sort -/

theorem insertLe_perm {α : Type} (le : α → α → Bool) (a : α) :
    ∀ (l : List α), (insertLe le a l).Perm (a :: l) := by
  intro l
  induction l with
  | nil => exact List.Perm.refl _
  | cons b l ih =>
    unfold insertLe
    by_cases h : le a b = true
    · rw [if_pos h]
    · rw [if_neg h]
      exact (ih.cons b).trans (List.Perm.swap a b l)

theorem sortBy_perm {α : Type} (le : α → α → Bool) :
    ∀ (l : List α), (sortBy le l).Perm l := by
  intro l
  induction l with
  | nil => exact List.Perm.refl _
  | cons a l ih =>
    unfold sortBy
    exact (insertLe_perm le a _).trans (ih.cons a)

theorem mem_sortBy {α : Type} {le : α → α → Bool} {x : α} {l : List α} :
    x ∈ sortBy le l ↔ x ∈ l :=
  (sortBy_perm le l).mem_iff

theorem pairwise_insertLe {α : Type} {le : α → α → Bool}
    (htrans : ∀ x y z, le x y = true → le y z = true → le x z = true)
    (htot : ∀ x y, (le x y || le y x) = true) (a : α) :
    ∀ {l : List α}, List.Pairwise (fun x y => le x y = true) l →
      List.Pairwise (fun x y => le x y = true) (insertLe le a l) := by
  intro l
  induction l with
  | nil => intro _; simp [insertLe]
  | cons b l ih =>
    intro h
    obtain ⟨hb, hl⟩ := List.pairwise_cons.mp h
    unfold insertLe
    by_cases hab : le a b = true
    · rw [if_pos hab]
      refine List.pairwise_cons.mpr ⟨?_, h⟩
      intro x hx
      cases List.mem_cons.mp hx with
      | inl hxb => exact hxb ▸ hab
      | inr hxl => exact htrans a b x hab (hb x hxl)
    · rw [if_neg hab]
      have hba : le b a = true := by
        rcases (Bool.or_eq_true _ _).mp (htot a b) with hv | hv
        · exact absurd hv hab
        · exact hv
      refine List.pairwise_cons.mpr ⟨?_, ih hl⟩
      intro x hx
      cases List.mem_cons.mp ((insertLe_perm le a l).mem_iff.mp hx) with
      | inl hxa => exact hxa ▸ hba
      | inr hxl => exact hb x hxl

theorem pairwise_sortBy {α : Type} {le : α → α → Bool}
    (htrans : ∀ x y z, le x y = true → le y z = true → le x z = true)
    (htot : ∀ x y, (le x y || le y x) = true) :
    ∀ (l : List α), List.Pairwise (fun x y => le x y = true) (sortBy le l) := by
  intro l
  induction l with
  | nil => simp [sortBy]
  | cons a l ih => exact pairwise_insertLe htrans htot a ih

/-! ### Header-append lookups and column reads after a column write -/

theorem idxOf?_append_of_some {n : String} :
    ∀ {l1 : List String} {i : Nat} (l2 : List String),
      idxOf? n l1 = some i → idxOf? n (l1 ++ l2) = some i := by
  intro l1
  induction l1 with
  | nil => intro i l2 h; simp [idxOf?] at h
  | cons a t ih =>
    intro i l2 h
    by_cases ha : a = n
    · simp [idxOf?, ha] at h ⊢
      omega
    · simp only [idxOf?, if_neg ha, Option.map_eq_some'] at h
      obtain ⟨j, hj, rfl⟩ := h
      have hrec := ih l2 hj
      show idxOf? n (a :: (t ++ l2)) = some (j + 1)
      simp only [idxOf?, if_neg ha, hrec, Option.map_some']

theorem idxOf?_append_of_not_mem {n : String} :
    ∀ {l1 : List String} (l2 : List String), n ∉ l1 →
      idxOf? n (l1 ++ l2) = (idxOf? n l2).map (· + l1.length) := by
  intro l1
  induction l1 with
  | nil =>
    intro l2 _
    simp
  | cons a t ih =>
    intro l2 h
    have ha : a ≠ n := fun hc => h (hc ▸ List.mem_cons_self a t)
    have hnt : n ∉ t := fun hc => h (List.mem_cons_of_mem a hc)
    have hrec := ih l2 hnt
    show idxOf? n (a :: (t ++ l2)) = (idxOf? n l2).map (· + (a :: t).length)
    simp only [idxOf?, if_neg ha, hrec, List.length_cons]
    cases idxOf? n l2 with
    | none => simp
    | some j =>
      simp only [Option.map_some', Option.some.injEq]
      omega

theorem map_cellAt_zip_set_self {i : Nat} :
    ∀ (rows : List (List Cell)) (vals : List Cell), vals.length = rows.length →
      (∀ r ∈ rows, i < r.length) →
      ((rows.zip vals).map (fun rv => rv.1.set i rv.2)).map (fun r => cellAt r i) = vals := by
  intro rows
  induction rows with
  | nil =>
    intro vals hlen _
    cases vals with
    | nil => rfl
    | cons v vs => simp at hlen
  | cons r rs ih =>
    intro vals hlen hwf
    cases vals with
    | nil => simp at hlen
    | cons v vs =>
      simp only [List.zip_cons_cons, List.map_cons]
      rw [cellAt_set_self (hwf r (List.mem_cons_self r rs))]
      rw [ih vs (by simpa using hlen) (fun x hx => hwf x (List.mem_cons_of_mem r hx))]

theorem map_cellAt_zip_set_ne {i j : Nat} (hij : i ≠ j) :
    ∀ (rows : List (List Cell)) (vals : List Cell), vals.length = rows.length →
      ((rows.zip vals).map (fun rv => rv.1.set i rv.2)).map (fun r => cellAt r j) =
        rows.map (fun r => cellAt r j) := by
  intro rows
  induction rows with
  | nil => intro vals _; rfl
  | cons r rs ih =>
    intro vals hlen
    cases vals with
    | nil => simp at hlen
    | cons v vs =>
      simp only [List.zip_cons_cons, List.map_cons]
      rw [cellAt_set_ne hij, ih vs (by simpa using hlen)]

theorem map_cellAt_zip_append_len :
    ∀ (rows : List (List Cell)) (vals : List Cell) (n : Nat), vals.length = rows.length →
      (∀ r ∈ rows, r.length = n) →
      ((rows.zip vals).map (fun rv => rv.1 ++ [rv.2])).map (fun r => cellAt r n) = vals := by
  intro rows
  induction rows with
  | nil =>
    intro vals n hlen _
    cases vals with
    | nil => rfl
    | cons v vs => simp at hlen
  | cons r rs ih =>
    intro vals n hlen hwf
    cases vals with
    | nil => simp at hlen
    | cons v vs =>
      simp only [List.zip_cons_cons, List.map_cons]
      rw [show cellAt (r ++ [v]) n = v from (hwf r (List.mem_cons_self r rs)) ▸ cellAt_append_len]
      rw [ih vs n (by simpa using hlen) (fun x hx => hwf x (List.mem_cons_of_mem r hx))]

theorem map_cellAt_zip_append_lt {j : Nat} :
    ∀ (rows : List (List Cell)) (vals : List Cell), vals.length = rows.length →
      (∀ r ∈ rows, j < r.length) →
      ((rows.zip vals).map (fun rv => rv.1 ++ [rv.2])).map (fun r => cellAt r j) =
        rows.map (fun r => cellAt r j) := by
  intro rows
  induction rows with
  | nil => intro vals _ _; rfl
  | cons r rs ih =>
    intro vals hlen hwf
    cases vals with
    | nil => simp at hlen
    | cons v vs =>
      simp only [List.zip_cons_cons, List.map_cons]
      rw [cellAt_append_lt (hwf r (List.mem_cons_self r rs))]
      rw [ih vs (by simpa using hlen) (fun x hx => hwf x (List.mem_cons_of_mem r hx))]

/-- Reading back the column just written by `setCol`. -/
theorem colD_setCol_self (tb : Table) (name : String) (vals : List Cell)
    (hlen : vals.length = tb.rows.length)
    (hwf : ∀ r ∈ tb.rows, r.length = tb.header.length) :
    (tb.setCol name vals).colD name = vals := by
  unfold Table.setCol Table.colD
  cases hidx : idxOf? name tb.header with
  | some i =>
    simp only [hidx]
    exact map_cellAt_zip_set_self tb.rows vals hlen
      (fun r hr => (hwf r hr) ▸ idxOf?_lt_length hidx)
  | none =>
    have hnm : name ∉ tb.header := idxOf?_eq_none_iff.mp hidx
    have happ : idxOf? name (tb.header ++ [name]) = some tb.header.length := by
      rw [idxOf?_append_of_not_mem [name] hnm]
      simp [idxOf?]
    simp only [happ]
    exact map_cellAt_zip_append_len tb.rows vals tb.header.length hlen hwf

/-- Reading any other column after `setCol` is unchanged. -/
theorem colD_setCol_other (tb : Table) (name other : String) (vals : List Cell)
    (hne : other ≠ name) (hlen : vals.length = tb.rows.length)
    (hwf : ∀ r ∈ tb.rows, r.length = tb.header.length) :
    (tb.setCol name vals).colD other = tb.colD other := by
  unfold Table.setCol Table.colD
  cases hidx : idxOf? name tb.header with
  | some i =>
    simp only [hidx]
    cases hodx : idxOf? other tb.header with
    | none => simp
    | some j =>
      have hij : i ≠ j := idxOf?_ne hidx hodx (fun h => hne h.symm)
      simp only [hodx]
      exact map_cellAt_zip_set_ne hij tb.rows vals hlen
  | none =>
    have hnm : name ∉ tb.header := idxOf?_eq_none_iff.mp hidx
    simp only [hidx]
    cases hodx : idxOf? other tb.header with
    | none =>
      have hno : other ∉ tb.header := idxOf?_eq_none_iff.mp hodx
      have : idxOf? other (tb.header ++ [name]) = none := by
        rw [idxOf?_append_of_not_mem [name] hno]
        simp [idxOf?, Ne.symm hne]
      simp [this, hodx]
    | some j =>
      have happ := idxOf?_append_of_some [name] hodx
      simp only [happ, hodx]
      exact map_cellAt_zip_append_lt tb.rows vals hlen
        (fun r hr => (hwf r hr) ▸ idxOf?_lt_length hodx)

/-! ### Grouping a list by its keys is a permutation of the rows with a key -/

theorem flatMap_filter_of_not_mem {α β : Type} [DecidableEq β] (key : α → β) (r : α)
    (rs : List α) (ks : List β) (h : key r ∉ ks) :
    ks.flatMap (fun k => (r :: rs).filter (fun x => key x == k)) =
      ks.flatMap (fun k => rs.filter (fun x => key x == k)) := by
  induction ks with
  | nil => rfl
  | cons k ks ih =>
    have hk : (key r == k) = false := by
      simp only [beq_eq_false_iff_ne]
      intro hkr
      exact h (hkr ▸ List.mem_cons_self k ks)
    have hhead : (r :: rs).filter (fun x => key x == k) = rs.filter (fun x => key x == k) := by
      rw [List.filter_cons, hk]
      simp
    rw [List.flatMap_cons, List.flatMap_cons, hhead,
      ih (fun hm => h (List.mem_cons_of_mem k hm))]

theorem flatMap_filter_of_mem {α β : Type} [DecidableEq β] (key : α → β) (r : α)
    (rs : List α) :
    ∀ (ks : List β), ks.Nodup → key r ∈ ks →
      (ks.flatMap (fun k => (r :: rs).filter (fun x => key x == k))).Perm
        (r :: ks.flatMap (fun k => rs.filter (fun x => key x == k))) := by
  intro ks
  induction ks with
  | nil => intro _ h; simp at h
  | cons k ks ih =>
    intro hnd hm
    have hnd' := hnd.of_cons
    have hknotin := (List.nodup_cons.mp hnd).1
    by_cases hk : key r = k
    · have hne : key r ∉ ks := hk ▸ hknotin
      have hhead : (r :: rs).filter (fun x => key x == k) =
          r :: rs.filter (fun x => key x == k) := by
        rw [List.filter_cons]
        simp [hk]
      rw [List.flatMap_cons, List.flatMap_cons, hhead,
        flatMap_filter_of_not_mem key r rs ks hne]
      exact List.Perm.refl _
    · have hm' : key r ∈ ks := by
        cases List.mem_cons.mp hm with
        | inl h => exact absurd h hk
        | inr h => exact h
      have hkb : (key r == k) = false := by simpa using hk
      have hhead : (r :: rs).filter (fun x => key x == k) =
          rs.filter (fun x => key x == k) := by
        rw [List.filter_cons, hkb]
        simp
      rw [List.flatMap_cons, List.flatMap_cons, hhead]
      exact (List.Perm.append_left _ (ih hnd' hm')).trans List.perm_middle

theorem groupby_perm {α β : Type} [DecidableEq β] (key : α → β) (good : β → Bool) :
    ∀ (rows : List α) (ks : List β), ks.Nodup →
      (∀ x ∈ rows, (good (key x) = true ↔ key x ∈ ks)) →
      (ks.flatMap (fun k => rows.filter (fun x => key x == k))).Perm
        (rows.filter (fun x => good (key x))) := by
  intro rows
  induction rows with
  | nil =>
    intro ks _ _
    simp
  | cons r rs ih =>
    intro ks hnd hcov
    have hcov' : ∀ x ∈ rs, (good (key x) = true ↔ key x ∈ ks) :=
      fun x hx => hcov x (List.mem_cons_of_mem r hx)
    by_cases hg : good (key r) = true
    · have hm : key r ∈ ks := (hcov r (List.mem_cons_self r rs)).mp hg
      have hrhs : (r :: rs).filter (fun x => good (key x)) =
          r :: rs.filter (fun x => good (key x)) := by
        rw [List.filter_cons, hg]
        simp
      rw [hrhs]
      exact (flatMap_filter_of_mem key r rs ks hnd hm).trans ((ih ks hnd hcov').cons r)
    · have hm : key r ∉ ks := fun hin =>
        hg ((hcov r (List.mem_cons_self r rs)).mpr hin)
      have hgb : good (key r) = false := by
        cases hgval : good (key r) with
        | false => rfl
        | true => exact absurd hgval hg
      have hrhs : (r :: rs).filter (fun x => good (key x)) =
          rs.filter (fun x => good (key x)) := by
        rw [List.filter_cons, hgb]
        simp
      rw [hrhs, flatMap_filter_of_not_mem key r rs ks hm]
      exact ih ks hnd hcov'

/-- In a list whose keys are pairwise distinct, filtering for the key of a
member finds exactly that member. -/
theorem filter_key_eq_singleton {α β : Type} [DecidableEq β] (key : α → β) :
    ∀ {l : List α}, (l.map key).Nodup → ∀ {a : α}, a ∈ l →
      l.filter (fun x => key x == key a) = [a] := by
  intro l
  induction l with
  | nil => intro _ a ha; simp at ha
  | cons x xs ih =>
    intro hnd a ha
    have hnd2 : (key x :: xs.map key).Nodup := by simpa using hnd
    have hx : key x ∉ xs.map key := (List.nodup_cons.mp hnd2).1
    have hnd' : (xs.map key).Nodup := (List.nodup_cons.mp hnd2).2
    cases List.mem_cons.mp ha with
    | inl h =>
      have hk : key x = key a := by rw [h]
      have hfil : xs.filter (fun y => key y == key a) = [] := by
        rw [List.filter_eq_nil_iff]
        intro b hb
        simp only [beq_iff_eq]
        intro hkey
        have hmem : key b ∈ xs.map key := List.mem_map_of_mem key hb
        rw [hkey, ← hk] at hmem
        exact hx hmem
      have hhead : (key x == key a) = true := by simp [hk]
      rw [List.filter_cons, hhead]
      simp only [if_true, hfil]
      rw [h]
    | inr h =>
      have hxa : (key x == key a) = false := by
        simp only [beq_eq_false_iff_ne]
        intro hkey
        have hmem : key a ∈ xs.map key := List.mem_map_of_mem key h
        rw [← hkey] at hmem
        exact hx hmem
      rw [List.filter_cons, hxa]
      simp only [Bool.false_eq_true, if_false]
      exact ih hnd' h

/-! ### Sortedness gives the device-partition property -/

theorem keyLe_of_pairLe {a b : Cell × Cell} (h : pairLe a b = true) :
    a.1 = b.1 ∨ cellLe a.1 b.1 = true := by
  unfold pairLe at h
  by_cases hab : a.1 = b.1
  · exact Or.inl hab
  · rw [if_neg hab] at h
    exact Or.inr h

theorem key_eq_of_between {a b c : Cell} (h1 : a = b ∨ cellLe a b = true)
    (h2 : b = c ∨ cellLe b c = true) (hac : a = c) : b = a := by
  cases h1 with
  | inl h => exact h.symm
  | inr h =>
    cases h2 with
    | inl h' => exact h'.trans hac.symm
    | inr h' =>
      have h'' : cellLe b a = true := by rw [hac]; exact h'
      exact cellLe_antisymm h'' h

theorem coerceTimeCol_ok {df : Table} {ti : Nat}
    (hti : idxOf? TIME_COLUMN df.header = some ti) :
    coerceTimeCol df = .ok (coerceTableD df) := by
  unfold coerceTimeCol coerceTableD
  rw [hti]
  simp

theorem expandRow_ok {df : Table} {ti di : Nat} {k : Cell} {K : Nat} {r : List Cell}
    (hti : idxOf? TIME_COLUMN df.header = some ti)
    (hdi : idxOf? DELINEATING_COL df.header = some di)
    (hA : ∀ i, i < K → actName i ∈ df.header)
    (hk : cellAt r di = k) :
    expandRow df ti k K r = .ok (expandAll df K r) := by
  unfold expandRow expandAll
  apply exceptMapM_ok_of
  intro off hoff
  obtain ⟨ai, hai⟩ := idxOf?_isSome_of_mem (hA off (List.mem_range.mp hoff))
  simp only [cell_eq_ok hai]
  simp only [mkDerivedRow, cellGet_eq_cellAt hai, cellGet_eq_cellAt hdi,
    cellGet_eq_cellAt hti, hk]

theorem noInterleave_of_pairwise {rows : List (List Cell)}
    (h : List.Pairwise (fun a b => meltRowLe a b = true) rows) : noInterleave rows := by
  intro i j k hij hjk hk hik
  have hi : i < rows.length := lt_trans (lt_trans hij hjk) hk
  have hj : j < rows.length := lt_trans hjk hk
  have hget := List.pairwise_iff_getElem.mp h
  have h1 : meltRowLe rows[i] rows[j] = true := hget i j hi hj hij
  have h2 : meltRowLe rows[j] rows[k] = true := hget j k hj hk hjk
  have e1 : rows.getD i [] = rows[i] := by
    simp [List.getD_eq_getElem?_getD, List.getElem?_eq_getElem hi]
  have e2 : rows.getD j [] = rows[j] := by
    simp [List.getD_eq_getElem?_getD, List.getElem?_eq_getElem hj]
  have e3 : rows.getD k [] = rows[k] := by
    simp [List.getD_eq_getElem?_getD, List.getElem?_eq_getElem hk]
  rw [e1, e2]
  rw [e1, e3] at hik
  have k1 := keyLe_of_pairLe h1
  have k2 := keyLe_of_pairLe h2
  exact key_eq_of_between k1 k2 hik

/-! ### Inversion of a successful run, and the state of the mutated input -/

theorem coerceTimeCol_ok_inv {df df' : Table} (h : coerceTimeCol df = .ok df') :
    ∃ ti, idxOf? TIME_COLUMN df.header = some ti ∧ df' = coerceTableD df := by
  unfold coerceTimeCol at h
  cases hidx : idxOf? TIME_COLUMN df.header with
  | none => rw [hidx] at h; exact absurd h (by simp)
  | some ti =>
    rw [hidx] at h
    simp only [Except.ok.injEq] at h
    refine ⟨ti, rfl, ?_⟩
    rw [← h]
    unfold coerceTableD
    rw [hidx]
    rfl

theorem melt_ok_inv {df m mtbl : Table}
    (h : melt_activity_data df = .ok (m, mtbl)) :
    ∃ ti, idxOf? TIME_COLUMN df.header = some ti ∧ mtbl = coerceTableD df := by
  unfold melt_activity_data at h
  split at h
  · simp at h
  · rename_i df' heq
    obtain ⟨ti, hidx, rfl⟩ := coerceTimeCol_ok_inv heq
    refine ⟨ti, hidx, ?_⟩
    split at h
    · simp at h
    · dsimp only at h
      split at h
      · simp at h
      · split at h
        · simp at h
        · simp only [Except.ok.injEq, Prod.mk.injEq] at h
          exact h.2.symm

theorem bin_data_ok_inv {df : Table} {interval : String} {schedule : List Rule}
    {out mtbl : Table} (h : bin_data df interval schedule = .ok (out, mtbl)) :
    ∃ (mag ti : Nat), parseMagnitude interval = some mag ∧
      idxOf? TIME_COLUMN df.header = some ti ∧
      ((mag * unitMinutes interval : Nat) : ℤ) ≠ 0 ∧
      mtbl = (coerceTableD df).setCol "Bin" ((coerceTableD df).rows.map
        (fun r => floorCell ((mag * unitMinutes interval : Nat) : ℤ) (cellAt r ti))) := by
  unfold bin_data at h
  split at h
  · simp at h
  · rename_i mag hmag
    split at h
    · simp at h
    · rename_i df1 heq
      obtain ⟨ti, hidx, rfl⟩ := coerceTimeCol_ok_inv heq
      dsimp only at h
      have hgd : (idxOf? TIME_COLUMN (coerceTableD df).header).getD 0 = ti := by
        show (idxOf? TIME_COLUMN df.header).getD 0 = ti
        rw [hidx]
        rfl
      rw [hgd] at h
      split at h
      · simp at h
      · rename_i hne0
        split at h
        · simp at h
        · rename_i summary hsum
          simp only [Except.ok.injEq, Prod.mk.injEq] at h
          exact ⟨mag, ti, hmag, hidx, hne0, h.2.symm⟩

theorem wf_coerceTableD {df : Table}
    (hwf : ∀ r ∈ df.rows, r.length = df.header.length) :
    ∀ r ∈ (coerceTableD df).rows, r.length = (coerceTableD df).header.length := by
  intro r hr
  unfold coerceTableD coerceRows at hr ⊢
  obtain ⟨r0, hr0, rfl⟩ := List.mem_map.mp hr
  simp [List.length_set, hwf r0 hr0]

theorem colD_coerceTableD_time {df : Table} {ti : Nat}
    (hidx : idxOf? TIME_COLUMN df.header = some ti)
    (hwf : ∀ r ∈ df.rows, r.length = df.header.length) :
    (coerceTableD df).colD TIME_COLUMN = (df.colD TIME_COLUMN).map coerceTime := by
  unfold coerceTableD Table.colD coerceRows
  rw [hidx]
  simp only [Option.getD_some, List.map_map]
  apply List.map_congr_left
  intro r hr
  show cellAt (r.set ti (coerceTime (cellAt r ti))) ti = coerceTime (cellAt r ti)
  exact cellAt_set_self ((hwf r hr) ▸ idxOf?_lt_length hidx)

theorem colD_coerceTableD_other {df : Table} {ti : Nat}
    (hidx : idxOf? TIME_COLUMN df.header = some ti)
    (c : String) (hc : c ≠ TIME_COLUMN) :
    (coerceTableD df).colD c = df.colD c := by
  unfold coerceTableD Table.colD coerceRows
  rw [hidx]
  cases hodx : idxOf? c df.header with
  | none => simp
  | some j =>
    have hne : ti ≠ j := idxOf?_ne hidx hodx (fun hh => hc hh.symm)
    simp only [Option.getD_some, List.map_map]
    apply List.map_congr_left
    intro r _
    exact cellAt_set_ne hne

/-- The columns of the Binner's mutated input: the timestamp column is
coerced in place, the `Bin` column holds the elementwise interval floor of
that same (coerced) timestamp column, and every other column is untouched. -/
theorem binned_input_cols {df : Table} {interval : String} {schedule : List Rule}
    {out mtbl : Table}
    (hwf : ∀ r ∈ df.rows, r.length = df.header.length)
    (h : bin_data df interval schedule = .ok (out, mtbl)) :
    ∃ mag : Nat, parseMagnitude interval = some mag ∧
      0 < ((mag * unitMinutes interval : Nat) : ℤ) ∧
      mtbl.colD TIME_COLUMN = (df.colD TIME_COLUMN).map coerceTime ∧
      mtbl.colD "Bin" = (mtbl.colD TIME_COLUMN).map
        (floorCell ((mag * unitMinutes interval : Nat) : ℤ)) ∧
      ∀ c : String, c ≠ TIME_COLUMN → c ≠ "Bin" → mtbl.colD c = df.colD c := by
  obtain ⟨mag, ti, hmag, hidx, hne0, rfl⟩ := bin_data_ok_inv h
  have hwfc := wf_coerceTableD hwf
  have hlen : ((coerceTableD df).rows.map
      (fun r => floorCell ((mag * unitMinutes interval : Nat) : ℤ) (cellAt r ti))).length =
      (coerceTableD df).rows.length := List.length_map _ _
  have hTB : TIME_COLUMN ≠ ("Bin" : String) := by decide
  have hcolT : ((coerceTableD df).setCol "Bin" ((coerceTableD df).rows.map
      (fun r => floorCell ((mag * unitMinutes interval : Nat) : ℤ)
        (cellAt r ti)))).colD TIME_COLUMN = (df.colD TIME_COLUMN).map coerceTime := by
    rw [colD_setCol_other _ _ _ _ hTB hlen hwfc]
    exact colD_coerceTableD_time hidx hwf
  refine ⟨mag, hmag, ?_, hcolT, ?_, ?_⟩
  · omega
  · rw [colD_setCol_self _ _ _ hlen hwfc, hcolT]
    rw [← colD_coerceTableD_time hidx hwf]
    have hcol : (coerceTableD df).colD TIME_COLUMN =
        (coerceTableD df).rows.map (fun r => cellAt r ti) := by
      unfold Table.colD
      rw [show idxOf? TIME_COLUMN (coerceTableD df).header = some ti from hidx]
    rw [hcol, List.map_map]
    rfl
  · intro c hcT hcB
    rw [colD_setCol_other _ _ _ _ hcB hlen hwfc]
    exact colD_coerceTableD_other hidx c hcT

/-! ### Structure of a successful melt -/

theorem melt_ok_struct (df : Table)
    (hT : TIME_COLUMN ∈ df.header) (hD : DELINEATING_COL ∈ df.header)
    (hA : ∀ i, i < (df.header.filter isActCol).length → actName i ∈ df.header)
    (hK : 0 < (df.header.filter isActCol).length)
    (hrow : ∃ r ∈ df.rows, df.cellGet r DELINEATING_COL ≠ Cell.na) :
    ∃ m : Table, melt_activity_data df = .ok (m, coerceTableD df) ∧
      m.header = meltHeader ∧
      m.rows.Perm (specLongRows (coerceTableD df) (df.header.filter isActCol).length) ∧
      List.Pairwise (fun a b => meltRowLe a b = true) m.rows := by
  obtain ⟨ti, hti⟩ := idxOf?_isSome_of_mem hT
  obtain ⟨di, hdi⟩ := idxOf?_isSome_of_mem hD
  have hdt : DELINEATING_COL ≠ TIME_COLUMN := by decide
  have hdine : di ≠ ti := idxOf?_ne hdi hti hdt
  have hcoerce := coerceTimeCol_ok hti
  have hdrc : (coerceTableD df).header = df.header := rfl
  have hdic : idxOf? DELINEATING_COL (coerceTableD df).header = some di := by
    rw [hdrc]; exact hdi
  have htic : idxOf? TIME_COLUMN (coerceTableD df).header = some ti := by
    rw [hdrc]; exact hti
  have htig : (idxOf? TIME_COLUMN (coerceTableD df).header).getD 0 = ti := by
    rw [htic]; rfl
  have hAc : ∀ i, i < (df.header.filter isActCol).length →
      actName i ∈ (coerceTableD df).header := by
    intro i hi; rw [hdrc]; exact hA i hi
  -- groups step: the whole expansion is error-free
  have hgrp : ∀ k,
      exceptMapM (expandRow (coerceTableD df) ti k (df.header.filter isActCol).length)
        ((coerceTableD df).rows.filter (fun r => cellAt r di == k)) =
      .ok (((coerceTableD df).rows.filter (fun r => cellAt r di == k)).map
        (expandAll (coerceTableD df) (df.header.filter isActCol).length)) := by
    intro k
    apply exceptMapM_ok_of
    intro r hr
    have hkr : cellAt r di = k := by
      have := (List.mem_filter.mp hr).2
      simpa using this
    exact expandRow_ok htic hdic hAc hkr
  have houter :
      exceptMapM
        (fun k =>
          match exceptMapM (expandRow (coerceTableD df) ti k
              (df.header.filter isActCol).length)
              ((coerceTableD df).rows.filter (fun r => cellAt r di == k)) with
          | .error e => .error e
          | .ok ex => .ok ex.flatten)
        (validKeys (coerceTableD df).rows di) =
      .ok ((validKeys (coerceTableD df).rows di).map
        (fun k => ((coerceTableD df).rows.filter (fun r => cellAt r di == k)).flatMap
          (expandAll (coerceTableD df) (df.header.filter isActCol).length))) := by
    apply exceptMapM_ok_of
    intro k _
    rw [hgrp k]
    simp [List.flatMap_def]
  -- the melted rows and their nonemptiness
  obtain ⟨r0, hr0, hr0key⟩ := hrow
  rw [cellGet_eq_cellAt hdi] at hr0key
  have hr0c : r0.set ti (coerceTime (cellAt r0 ti)) ∈ (coerceTableD df).rows := by
    have : (coerceTableD df).rows = coerceRows df.rows
        ((idxOf? TIME_COLUMN df.header).getD 0) := rfl
    rw [this, hti]
    exact List.mem_map_of_mem _ hr0
  have hr0ckey : cellAt (r0.set ti (coerceTime (cellAt r0 ti))) di = cellAt r0 di :=
    cellAt_set_ne (fun h => hdine h.symm)
  have hk0 : cellAt r0 di ∈ validKeys (coerceTableD df).rows di := by
    unfold validKeys
    rw [mem_sortBy, List.mem_dedup]
    apply List.mem_filter.mpr
    refine ⟨?_, by simpa using hr0key⟩
    exact hr0ckey ▸ List.mem_map_of_mem _ hr0c
  have hmem0 : mkDerivedRow (coerceTableD df) (r0.set ti (coerceTime (cellAt r0 ti))) 0 ∈
      ((validKeys (coerceTableD df).rows di).map
        (fun k => ((coerceTableD df).rows.filter (fun r => cellAt r di == k)).flatMap
          (expandAll (coerceTableD df) (df.header.filter isActCol).length))).flatten := by
    rw [← List.flatMap_def]
    apply List.mem_flatMap.mpr
    refine ⟨cellAt r0 di, hk0, ?_⟩
    apply List.mem_flatMap.mpr
    refine ⟨r0.set ti (coerceTime (cellAt r0 ti)), ?_, ?_⟩
    · exact List.mem_filter.mpr ⟨hr0c, by simp [hr0ckey]⟩
    · unfold expandAll
      exact List.mem_map_of_mem _ (List.mem_range.mpr hK)
  have hnonempty :
      (((validKeys (coerceTableD df).rows di).map
        (fun k => ((coerceTableD df).rows.filter (fun r => cellAt r di == k)).flatMap
          (expandAll (coerceTableD df) (df.header.filter isActCol).length))).flatten).isEmpty
        = false :=
    List.isEmpty_eq_false.mpr (List.ne_nil_of_mem hmem0)
  -- reduce the program
  refine ⟨⟨meltHeader,
      sortBy meltRowLe ((((validKeys (coerceTableD df).rows di).map
        (fun k => ((coerceTableD df).rows.filter (fun r => cellAt r di == k)).flatMap
          (expandAll (coerceTableD df) (df.header.filter isActCol).length))).flatten).filter
            (fun r => cellAt r 2 != Cell.na))⟩, ?_, rfl, ?_, ?_⟩
  · show melt_activity_data df = _
    unfold melt_activity_data
    rw [hcoerce]
    simp only [hdic, htig, houter, hnonempty]
    rfl
  · -- permutation with the specified long rows
    have hperm1 : (((validKeys (coerceTableD df).rows di).map
        (fun k => ((coerceTableD df).rows.filter (fun r => cellAt r di == k)).flatMap
          (expandAll (coerceTableD df) (df.header.filter isActCol).length))).flatten).Perm
        (((coerceTableD df).rows.filter (fun r => cellAt r di != Cell.na)).flatMap
          (expandAll (coerceTableD df) (df.header.filter isActCol).length)) := by
      rw [← List.flatMap_def, ← List.flatMap_assoc]
      apply List.Perm.flatMap_right
      apply groupby_perm (fun r => cellAt r di) (fun c => c != Cell.na)
      · exact ((sortBy_perm _ _).symm).nodup (List.nodup_dedup _)
      · intro x hx
        unfold validKeys
        rw [mem_sortBy, List.mem_dedup]
        constructor
        · intro hgood
          exact List.mem_filter.mpr ⟨List.mem_map_of_mem _ hx, hgood⟩
        · intro hmem
          exact (List.mem_filter.mp hmem).2
    have hperm2 := sortBy_perm meltRowLe ((((validKeys (coerceTableD df).rows di).map
        (fun k => ((coerceTableD df).rows.filter (fun r => cellAt r di == k)).flatMap
          (expandAll (coerceTableD df) (df.header.filter isActCol).length))).flatten).filter
            (fun r => cellAt r 2 != Cell.na))
    refine hperm2.trans ?_
    refine (hperm1.filter _).trans ?_
    unfold specLongRows
    have hfe : ((coerceTableD df).rows.filter (fun r => cellAt r di != Cell.na)) =
        ((coerceTableD df).rows.filter
          (fun r => (coerceTableD df).cellGet r DELINEATING_COL != Cell.na)) := by
      apply List.filter_congr
      intro r _
      rw [cellGet_eq_cellAt hdic]
    rw [hfe]
    exact List.Perm.refl _
  · exact @pairwise_sortBy _ meltRowLe
      (fun a b c h1 h2 => meltRowLe_trans h1 h2)
      (fun a b => meltRowLe_total a b) _

/-! ### Flooring facts -/

theorem floorInt_mono {i t1 t2 : ℤ} (hi : 0 < i) (h : t1 ≤ t2) :
    floorInt i t1 ≤ floorInt i t2 :=
  mul_le_mul_of_nonneg_right (Int.ediv_le_ediv hi h) (le_of_lt hi)

theorem floorInt_dvd (i t : ℤ) : i ∣ floorInt i t :=
  ⟨t / i, mul_comm (t / i) i⟩

theorem floorInt_le (t : ℤ) {i : ℤ} (hi : 0 < i) : floorInt i t ≤ t :=
  Int.ediv_mul_le t (ne_of_gt hi)

theorem lt_floorInt_add (t : ℤ) {i : ℤ} (hi : 0 < i) : t < floorInt i t + i := by
  have h2 := Int.lt_ediv_add_one_mul_self t hi
  rw [add_one_mul] at h2
  unfold floorInt
  omega

/-! ### Shape of the Binner's rule tables and their left merge -/

theorem cellAt_cons_two {a b c : Cell} {r : List Cell} : cellAt (a :: b :: c :: r) 2 = c :=
  rfl

theorem idxOf?_cons_self {n : String} {t : List String} : idxOf? n (n :: t) = some 0 := by
  simp [idxOf?]

theorem idxOf?_cons_ne {a n : String} {t : List String} (h : ¬a = n) :
    idxOf? n (a :: t) = (idxOf? n t).map (· + 1) := by
  simp [idxOf?, h]

theorem flatMap_pure_eq_map {α β : Type} (f : α → β) (l : List α) :
    l.flatMap (fun x => [f x]) = l.map f := by
  induction l with
  | nil => rfl
  | cons a t ih => simp [List.flatMap_cons, ih]

theorem filter_fix_eq_singleton {α : Type} (k1 k2 : α → Cell) :
    ∀ {l : List α}, (l.map (fun x => (k1 x, k2 x))).Nodup → ∀ {a : α}, a ∈ l →
      l.filter (fun x => k1 x == k1 a && k2 x == k2 a) = [a] := by
  intro l
  induction l with
  | nil => intro _ a ha; simp at ha
  | cons x xs ih =>
    intro hnd a ha
    have hnd2 : ((k1 x, k2 x) :: xs.map (fun y => (k1 y, k2 y))).Nodup := by
      simpa using hnd
    have hx : (k1 x, k2 x) ∉ xs.map (fun y => (k1 y, k2 y)) := (List.nodup_cons.mp hnd2).1
    have hnd' : (xs.map (fun y => (k1 y, k2 y))).Nodup := (List.nodup_cons.mp hnd2).2
    cases List.mem_cons.mp ha with
    | inl h =>
      have hpred : (k1 x == k1 a && k2 x == k2 a) = true := by
        rw [h]
        simp
      have hfil : xs.filter (fun y => k1 y == k1 a && k2 y == k2 a) = [] := by
        rw [List.filter_eq_nil_iff]
        intro b hb hcontra
        rw [Bool.and_eq_true, beq_iff_eq, beq_iff_eq] at hcontra
        have hmem : (k1 b, k2 b) ∈ xs.map (fun y => (k1 y, k2 y)) :=
          List.mem_map_of_mem _ hb
        rw [hcontra.1, hcontra.2, h] at hmem
        exact hx hmem
      rw [@List.filter_cons_of_pos _ (fun y => k1 y == k1 a && k2 y == k2 a) x xs hpred,
        hfil, h]
    | inr h =>
      have hpred : ¬(k1 x == k1 a && k2 x == k2 a) = true := by
        intro hc
        rw [Bool.and_eq_true, beq_iff_eq, beq_iff_eq] at hc
        have hmem : (k1 a, k2 a) ∈ xs.map (fun y => (k1 y, k2 y)) :=
          List.mem_map_of_mem _ h
        rw [← hc.1, ← hc.2] at hmem
        exact hx hmem
      rw [@List.filter_cons_of_neg _ (fun y => k1 y == k1 a && k2 y == k2 a) x xs hpred]
      exact ih hnd' h

theorem filter_fix_eq_singleton' {α : Type} (k1 k2 : α → Cell) :
    ∀ {l : List α}, (l.map (fun x => (k1 x, k2 x))).Nodup → ∀ {a : α}, a ∈ l →
      l.filter (fun x => k1 a == k1 x && k2 a == k2 x) = [a] := by
  intro l hnd a ha
  have hswap : l.filter (fun x => k1 a == k1 x && k2 a == k2 x) =
      l.filter (fun x => k1 x == k1 a && k2 x == k2 a) := by
    apply List.filter_congr
    intro x _
    by_cases h1 : k1 a = k1 x
    · by_cases h2 : k2 a = k2 x
      · rw [h1, h2]
      · have hA : (k2 a == k2 x) = false := beq_eq_false_iff_ne.mpr h2
        have hB : (k2 x == k2 a) = false := beq_eq_false_iff_ne.mpr (Ne.symm h2)
        rw [h1, hA, hB]
    · have hA : (k1 a == k1 x) = false := beq_eq_false_iff_ne.mpr h1
      have hB : (k1 x == k1 a) = false := beq_eq_false_iff_ne.mpr (Ne.symm h1)
      rw [hA, hB, Bool.false_and, Bool.false_and]
  rw [hswap]
  exact filter_fix_eq_singleton k1 k2 hnd ha

theorem colIdxs_ok {hdr : List String} {cols : List String}
    (h : ∀ c ∈ cols, c ∈ hdr) :
    colIdxs hdr cols = .ok (cols.map (fun c => (idxOf? c hdr).getD 0)) := by
  unfold colIdxs
  apply exceptMapM_ok_of
  intro c hc
  obtain ⟨i, hi⟩ := idxOf?_isSome_of_mem (h c hc)
  simp only [hi]
  rfl

theorem validPairs_nodup (rows : List (List Cell)) (di bi : Nat) :
    (validPairs rows di bi).Nodup :=
  ((sortBy_perm _ _).symm).nodup (List.nodup_dedup _)

theorem ruleTable_ok {df2 : Table} {di : Nat} (rule : Rule)
    (hdi : idxOf? DELINEATING_COL df2.header = some di)
    (hcols : ∀ c ∈ rule.columns, c ∈ df2.header) :
    ruleTable df2 rule = .ok (Table.mk [DELINEATING_COL, "Bin", rule.name]
      ((validPairs df2.rows di ((idxOf? "Bin" df2.header).getD 0)).map
        (fun p => [p.1, p.2,
          ruleRowVal df2 di ((idxOf? "Bin" df2.header).getD 0) rule p]))) := by
  have hbody : exceptMapM
      (fun p =>
        match colIdxs df2.header rule.columns with
        | .error e => .error e
        | .ok idxs => .ok [p.1, p.2, applyAgg rule.summarize
            (groupVals idxs
              (df2.rows.filter (fun r => cellAt r di == p.1 &&
                cellAt r ((idxOf? "Bin" df2.header).getD 0) == p.2)))])
      (validPairs df2.rows di ((idxOf? "Bin" df2.header).getD 0)) =
      .ok ((validPairs df2.rows di ((idxOf? "Bin" df2.header).getD 0)).map
        (fun p => [p.1, p.2,
          ruleRowVal df2 di ((idxOf? "Bin" df2.header).getD 0) rule p])) := by
    apply exceptMapM_ok_of
    intro p _
    simp only [colIdxs_ok hcols]
    rfl
  unfold ruleTable
  rw [hdi]
  simp only [hbody]

theorem exists_cons_cons (l : List String) (n : Nat) (a b : String)
    (hlen : l.length = n + 2) (h0 : l.getD 0 "" = a) (h1 : l.getD 1 "" = b) :
    ∃ t, l = a :: b :: t ∧ t.length = n := by
  match l with
  | [] => simp at hlen
  | [x] => simp at hlen
  | x :: y :: t =>
    refine ⟨t, ?_, ?_⟩
    · have hx : x = a := h0
      have hy : y = b := h1
      rw [hx, hy]
    · simpa using hlen

theorem getD_map_range {α : Type} (g : Nat → α) (d : α) {m j : Nat} (h : j < m) :
    ((List.range m).map g).getD j d = g j := by
  rw [List.getD_eq_getElem?_getD, List.getElem?_map]
  have : (List.range m)[j]? = some j := by
    rw [List.getElem?_eq_getElem (by simpa using h)]
    simp
  rw [this]
  rfl


theorem flatMap_congr {α β : Type} {l : List α} {f g : α → List β}
    (h : ∀ a ∈ l, f a = g a) : l.flatMap f = l.flatMap g := by
  rw [List.flatMap_def, List.flatMap_def, List.map_congr_left h]

theorem shape_package (H : List String) (R tgt : List (List Cell)) (n : Nat) (a b : String)
    (hlen : H.length = n + 1 + 2) (h0 : H.getD 0 "" = a) (hgd1 : H.getD 1 "" = b)
    (hR : R = tgt) :
    ∃ t : List String, H = a :: b :: t ∧ t.length = n + 1 ∧ R = tgt := by
  obtain ⟨t, ht, htl⟩ := exists_cons_cons H (n + 1) a b hlen h0 hgd1
  exact ⟨t, ht, htl, hR⟩

theorem mergeLeftOn_step (pairs : List (Cell × Cell)) (hnd : pairs.Nodup)
    (acc : Table) (hdrRest : List String) (restF : (Cell × Cell) → List Cell)
    (h1 : acc.header = DELINEATING_COL :: "Bin" :: hdrRest)
    (h2 : acc.rows = pairs.map (fun p => p.1 :: p.2 :: restF p))
    (name : String) (vf : (Cell × Cell) → Cell) :
    ∃ hdrRest' : List String,
      (mergeLeftOn acc (Table.mk [DELINEATING_COL, "Bin", name]
        (pairs.map (fun p => [p.1, p.2, vf p])))).header =
        DELINEATING_COL :: "Bin" :: hdrRest' ∧
      hdrRest'.length = hdrRest.length + 1 ∧
      (mergeLeftOn acc (Table.mk [DELINEATING_COL, "Bin", name]
        (pairs.map (fun p => [p.1, p.2, vf p])))).rows =
        pairs.map (fun p => p.1 :: p.2 :: (restF p ++ [vf p])) := by
  have hli1 : (idxOf? DELINEATING_COL acc.header).getD 0 = 0 := by
    rw [h1, idxOf?_cons_self]
    rfl
  have hli2 : (idxOf? "Bin" acc.header).getD 0 = 1 := by
    rw [h1, idxOf?_cons_ne (by decide), idxOf?_cons_self]
    rfl
  have hri1 : (idxOf? DELINEATING_COL ([DELINEATING_COL, "Bin", name] :
      List String)).getD 0 = 0 := by
    rw [idxOf?_cons_self]
    rfl
  have hri2 : (idxOf? "Bin" ([DELINEATING_COL, "Bin", name] : List String)).getD 0 = 1 := by
    rw [idxOf?_cons_ne (by decide), idxOf?_cons_self]
    rfl
  have hpairsnd : (pairs.map (fun q => (q.1, q.2))).Nodup := by
    simpa using hnd
  unfold mergeLeftOn
  dsimp only
  rw [hli1, hli2, hri1, hri2]
  rw [show (([DELINEATING_COL, "Bin", name] : List String)).length = 3 from rfl]
  rw [show List.filter (fun i => i != 0 && i != 1) (List.range 3) = [2] by decide]
  rw [show List.map (fun i => ([DELINEATING_COL, "Bin", name] : List String).getD i "")
      ([2] : List Nat) = [name] from rfl]
  refine shape_package _ _ _ hdrRest.length _ _ ?_ ?_ ?_ ?_
  · -- length
    simp [h1]
  · -- getD 0
    rw [h1]
    simp only [List.length_cons, List.range_succ_eq_map, List.map_cons, List.cons_append]
    rfl
  · -- getD 1
    rw [h1]
    simp only [List.length_cons, List.range_succ_eq_map, List.map_cons, List.cons_append]
    rfl
  · -- rows
    rw [h2, List.flatMap_map]
    rw [← flatMap_pure_eq_map (fun p : Cell × Cell => p.1 :: p.2 :: (restF p ++ [vf p])) pairs]
    apply flatMap_congr
    intro p hp
    dsimp only
    have hfil : List.filter (fun rr : List Cell =>
        cellAt (p.1 :: p.2 :: restF p) 0 == cellAt rr 0 &&
        cellAt (p.1 :: p.2 :: restF p) 1 == cellAt rr 1)
        (List.map (fun q => [q.1, q.2, vf q]) pairs) = [[p.1, p.2, vf p]] := by
      rw [List.filter_map]
      have hinner : List.filter ((fun rr : List Cell =>
          cellAt (p.1 :: p.2 :: restF p) 0 == cellAt rr 0 &&
          cellAt (p.1 :: p.2 :: restF p) 1 == cellAt rr 1) ∘
            (fun q : Cell × Cell => [q.1, q.2, vf q])) pairs =
          List.filter (fun q : Cell × Cell => p.1 == q.1 && p.2 == q.2) pairs :=
        List.filter_congr (fun q _ => rfl)
      rw [hinner, filter_fix_eq_singleton' Prod.fst Prod.snd hpairsnd hp]
      rfl
    rw [hfil]
    rfl

theorem binnedInput_eq (df : Table) (interval : String) (mag : Nat) :
    binnedInput df interval mag = (coerceTableD df).setCol "Bin" ((coerceTableD df).rows.map
      (fun r => floorCell ((mag * unitMinutes interval : Nat) : ℤ)
        (cellAt r ((idxOf? TIME_COLUMN (coerceTableD df).header).getD 0)))) := rfl

theorem foldl_merge_shape (df2 : Table) (di bi : Nat)
    (pairs : List (Cell × Cell)) (hnd : pairs.Nodup) :
    ∀ (rs : List Rule) (acc : Table) (hdrRest : List String)
      (restF : (Cell × Cell) → List Cell),
      acc.header = DELINEATING_COL :: "Bin" :: hdrRest →
      acc.rows = pairs.map (fun p => p.1 :: p.2 :: restF p) →
      ∃ hdrRest' : List String,
        (rs.foldl (fun a r => mergeLeftOn a (Table.mk [DELINEATING_COL, "Bin", r.name]
            (pairs.map (fun p => [p.1, p.2, ruleRowVal df2 di bi r p])))) acc).header =
          DELINEATING_COL :: "Bin" :: hdrRest' ∧
        hdrRest'.length = hdrRest.length + rs.length ∧
        (rs.foldl (fun a r => mergeLeftOn a (Table.mk [DELINEATING_COL, "Bin", r.name]
            (pairs.map (fun p => [p.1, p.2, ruleRowVal df2 di bi r p])))) acc).rows =
          pairs.map (fun p => p.1 :: p.2 ::
            (restF p ++ rs.map (fun r => ruleRowVal df2 di bi r p))) := by
  intro rs
  induction rs with
  | nil =>
    intro acc hdrRest restF hh hr
    refine ⟨hdrRest, ?_, by simp, ?_⟩
    · rw [List.foldl_nil]; exact hh
    · rw [List.foldl_nil, hr]
      exact List.map_congr_left (fun p _ => by simp)
  | cons r rs ih =>
    intro acc hdrRest restF hh hr
    rw [List.foldl_cons]
    obtain ⟨hdr1, hh1, hl1, hr1⟩ := mergeLeftOn_step pairs hnd acc hdrRest restF hh hr
      r.name (ruleRowVal df2 di bi r)
    obtain ⟨hdr2, hh2, hl2, hr2⟩ := ih _ hdr1
      (fun p => restF p ++ [ruleRowVal df2 di bi r p]) hh1 hr1
    refine ⟨hdr2, hh2, ?_, ?_⟩
    · rw [hl2, hl1]
      simp [List.length_cons]
      omega
    · rw [hr2]
      exact List.map_congr_left (fun p _ => by simp)

theorem bin_ok_shape {df : Table} {interval : String} {schedule : List Rule}
    {mag ti di : Nat}
    (hmag : parseMagnitude interval = some mag)
    (hti : idxOf? TIME_COLUMN df.header = some ti)
    (hne0 : ¬((mag * unitMinutes interval : Nat) : ℤ) = 0)
    (hdi : idxOf? DELINEATING_COL (binnedInput df interval mag).header = some di)
    (hcols : ∀ rule ∈ schedule, ∀ c ∈ rule.columns,
      c ∈ (binnedInput df interval mag).header)
    (hsch : schedule ≠ []) :
    ∃ hdrTail : List String,
      hdrTail.length = schedule.length ∧
      bin_data df interval schedule = .ok
        (Table.mk (DELINEATING_COL :: TIME_COLUMN :: hdrTail)
          ((binPairs (binnedInput df interval mag)).map
            (fun p => p.1 :: p.2 :: schedule.map
              (fun r => ruleRowVal (binnedInput df interval mag) di
                ((idxOf? "Bin" (binnedInput df interval mag).header).getD 0) r p))),
         binnedInput df interval mag) := by
  cases schedule with
  | nil => exact absurd rfl hsch
  | cons r0 rs =>
    unfold bin_data
    rw [hmag, coerceTimeCol_ok hti]
    dsimp only
    rw [if_neg hne0]
    rw [← binnedInput_eq df interval mag]
    have hsum : exceptMapM (ruleTable (binnedInput df interval mag)) (r0 :: rs) =
        .ok ((r0 :: rs).map (fun r => Table.mk [DELINEATING_COL, "Bin", r.name]
          ((validPairs (binnedInput df interval mag).rows di
              ((idxOf? "Bin" (binnedInput df interval mag).header).getD 0)).map
            (fun p => [p.1, p.2, ruleRowVal (binnedInput df interval mag) di
              ((idxOf? "Bin" (binnedInput df interval mag).header).getD 0) r p])))) :=
      exceptMapM_ok_of _ _ _ (fun r hr => ruleTable_ok r hdi (hcols r hr))
    rw [hsum]
    dsimp only
    rw [List.map_cons]
    dsimp only
    rw [List.foldl_map]
    obtain ⟨hdr1, hh1, hl1, hr1⟩ := foldl_merge_shape (binnedInput df interval mag) di
      ((idxOf? "Bin" (binnedInput df interval mag).header).getD 0)
      (validPairs (binnedInput df interval mag).rows di
        ((idxOf? "Bin" (binnedInput df interval mag).header).getD 0))
      (validPairs_nodup _ _ _) rs
      (Table.mk [DELINEATING_COL, "Bin", r0.name]
        ((validPairs (binnedInput df interval mag).rows di
            ((idxOf? "Bin" (binnedInput df interval mag).header).getD 0)).map
          (fun p => [p.1, p.2, ruleRowVal (binnedInput df interval mag) di
            ((idxOf? "Bin" (binnedInput df interval mag).header).getD 0) r0 p])))
      [r0.name]
      (fun p => [ruleRowVal (binnedInput df interval mag) di
        ((idxOf? "Bin" (binnedInput df interval mag).header).getD 0) r0 p]) rfl rfl
    refine ⟨hdr1.map (fun n => if n == "Bin" then TIME_COLUMN else n), ?_, ?_⟩
    · rw [List.length_map, hl1]
      simp
      omega
    · have hD : ((DELINEATING_COL == "Bin") : Bool) = false := by decide
      have hB : (("Bin" == "Bin") : Bool) = true := by decide
      unfold binPairs
      rw [hdi]
      simp only [hh1, hr1, List.map_cons, hD, hB, Option.getD_some, Bool.false_eq_true,
        if_false, if_true, List.singleton_append]


/-- A string without a digit has no digit run. -/
theorem findDigits_eq_none {cs : List Char} (h : ∀ c ∈ cs, c.isDigit = false) :
    findDigits cs = none := by
  induction cs with
  | nil => rfl
  | cons c rest ih =>
    have hc := h c (List.mem_cons_self c rest)
    simp only [findDigits, hc, Bool.false_eq_true, if_false]
    exact ih (fun x hx => h x (List.mem_cons_of_mem c hx))

theorem melt_err_no_time {df : Table} (h : TIME_COLUMN ∉ df.header) :
    melt_activity_data df = .error (.keyError TIME_COLUMN) := by
  unfold melt_activity_data coerceTimeCol
  rw [idxOf?_eq_none_iff.mpr h]

theorem melt_err_no_dataset {df : Table} {ti : Nat}
    (hti : idxOf? TIME_COLUMN df.header = some ti)
    (h : DELINEATING_COL ∉ df.header) :
    melt_activity_data df = .error (.keyError DELINEATING_COL) := by
  unfold melt_activity_data
  rw [coerceTimeCol_ok hti]
  dsimp only
  rw [show idxOf? DELINEATING_COL (coerceTableD df).header = none from
    idxOf?_eq_none_iff.mpr h]

theorem colIdxs_error {hdr : List String} :
    ∀ {cols : List String}, (∃ c ∈ cols, idxOf? c hdr = none) →
      ∃ c', idxOf? c' hdr = none ∧ colIdxs hdr cols = .error (.keyError c') := by
  intro cols
  induction cols with
  | nil =>
    rintro ⟨c, hc, -⟩
    simp at hc
  | cons c0 cs ih =>
    rintro ⟨c, hc, hnone⟩
    by_cases h0 : idxOf? c0 hdr = none
    · refine ⟨c0, h0, ?_⟩
      unfold colIdxs exceptMapM
      rw [h0]
    · have hc' : c ∈ cs := by
        rcases List.mem_cons.mp hc with h | h
        · exact absurd (h ▸ hnone) h0
        · exact h
      obtain ⟨c', hn', he⟩ := ih ⟨c, hc', hnone⟩
      refine ⟨c', hn', ?_⟩
      obtain ⟨i, hi⟩ := Option.ne_none_iff_exists'.mp h0
      unfold colIdxs at he ⊢
      unfold exceptMapM
      rw [hi, he]

theorem ruleTable_error {df2 : Table} {di : Nat} (rule : Rule)
    (hdi : idxOf? DELINEATING_COL df2.header = some di)
    (hpne : validPairs df2.rows di ((idxOf? "Bin" df2.header).getD 0) ≠ [])
    (hmiss : ∃ c ∈ rule.columns, idxOf? c df2.header = none) :
    ∃ c', idxOf? c' df2.header = none ∧
      ruleTable df2 rule = .error (.keyError c') := by
  obtain ⟨c', hn', he⟩ := colIdxs_error hmiss
  refine ⟨c', hn', ?_⟩
  unfold ruleTable
  rw [hdi]
  dsimp only
  cases hvp : validPairs df2.rows di ((idxOf? "Bin" df2.header).getD 0) with
  | nil => exact absurd hvp hpne
  | cons p ps =>
    unfold exceptMapM
    rw [he]

theorem schedule_error {df2 : Table} {di : Nat}
    (hdi : idxOf? DELINEATING_COL df2.header = some di)
    (hpne : validPairs df2.rows di ((idxOf? "Bin" df2.header).getD 0) ≠ []) :
    ∀ {schedule : List Rule},
      (∃ rule ∈ schedule, ∃ c ∈ rule.columns, idxOf? c df2.header = none) →
      ∃ c', idxOf? c' df2.header = none ∧
        exceptMapM (ruleTable df2) schedule = .error (.keyError c') := by
  intro schedule
  induction schedule with
  | nil =>
    rintro ⟨r, hr, -⟩
    simp at hr
  | cons r0 rs ih =>
    rintro ⟨r, hr, hmiss⟩
    by_cases h0 : ∃ c ∈ r0.columns, idxOf? c df2.header = none
    · obtain ⟨c', hn', he⟩ := ruleTable_error r0 hdi hpne h0
      refine ⟨c', hn', ?_⟩
      unfold exceptMapM
      rw [he]
    · have hr' : r ∈ rs := by
        rcases List.mem_cons.mp hr with h | h
        · exact absurd (h ▸ hmiss) h0
        · exact h
      obtain ⟨c', hn', he⟩ := ih ⟨r, hr', hmiss⟩
      refine ⟨c', hn', ?_⟩
      have hall : ∀ c ∈ r0.columns, c ∈ df2.header := by
        intro c hc
        by_contra hcn
        exact h0 ⟨c, hc, idxOf?_eq_none_iff.mpr hcn⟩
      unfold exceptMapM
      rw [ruleTable_ok r0 hdi hall]
      dsimp only
      rw [he]

theorem set_cellAt_self : ∀ (r : List Cell) (i : Nat), i < r.length →
    r.set i (cellAt r i) = r := by
  intro r
  induction r with
  | nil =>
    intro i h
    simp at h
  | cons a t ih =>
    intro i h
    cases i with
    | zero => rfl
    | succ j =>
      show a :: t.set j (cellAt t j) = a :: t
      rw [ih j (by simpa using h)]

theorem zip_map_append (g : List Cell → Cell) :
    ∀ l : List (List Cell),
      (l.zip (l.map g)).map (fun rv => rv.1 ++ [rv.2]) =
        l.map (fun r => r ++ [g r]) := by
  intro l
  induction l with
  | nil => rfl
  | cons a t ih => simp only [List.map_cons, List.zip_cons_cons, ih]

theorem applyAgg_mean_singleton (q : ℚ) : applyAgg "mean" [q] = .num q := by
  have h1 : applyAgg "mean" [q] = .num (meanQ [q]) := rfl
  rw [h1]
  unfold meanQ
  norm_num

/-! ### The claims -/

/-- C1: for every wide table whose schema carries the timestamp column, the
device column, and positionally named activity slots `Act[0..K-1]` (with K
the number of activity columns, at least one, and at least one row carrying a
device key), the Reshaper succeeds and emits exactly one derived row per wide
record and slot `i`, holding that record's device key, derived time
`timestamp - i` minutes, and slot `i`'s activity value — the output rows are
a permutation of exactly the specified derived rows minus those whose
activity value is missing — and the final table is sorted by
(device, derived time) ascending, hence partitioned by device with no
interleaving. -/
theorem C1_reshaper_slot_rows (df : Table)
    (hT : TIME_COLUMN ∈ df.header) (hD : DELINEATING_COL ∈ df.header)
    (hA : ∀ i, i < (df.header.filter isActCol).length → actName i ∈ df.header)
    (hK : 0 < (df.header.filter isActCol).length)
    (hrow : ∃ r ∈ df.rows, df.cellGet r DELINEATING_COL ≠ Cell.na) :
    ∃ m : Table, melt_activity_data df = .ok (m, coerceTableD df) ∧
      m.header = meltHeader ∧
      m.rows.Perm (specLongRows (coerceTableD df) (df.header.filter isActCol).length) ∧
      List.Pairwise (fun a b => meltRowLe a b = true) m.rows ∧
      noInterleave m.rows := by
  obtain ⟨m, h1, h2, h3, h4⟩ := melt_ok_struct df hT hD hA hK hrow
  exact ⟨m, h1, h2, h3, h4, noInterleave_of_pairwise h4⟩

set_option maxRecDepth 100000 in
/-- Witness for C1 at a concrete two-device table with two activity slots. -/
theorem C1_reshaper_slot_rows_witness :
    ∃ m : Table,
      melt_activity_data wideTblEx = .ok (m, coerceTableD wideTblEx) ∧
      m.header = meltHeader ∧
      m.rows.Perm (specLongRows (coerceTableD wideTblEx)
        (wideTblEx.header.filter isActCol).length) ∧
      List.Pairwise (fun a b => meltRowLe a b = true) m.rows ∧
      noInterleave m.rows :=
  C1_reshaper_slot_rows wideTblEx (by decide) (by decide) (by decide) (by decide)
    (by decide)

/-- C2: whenever the Binner succeeds, each row of the (binned) table is
assigned a `Bin` that is the elementwise interval floor of that same row's
timestamp — a function of the row's own derived time, independent of row
order and of other rows — where the interval width is the parsed magnitude
times the unit; flooring is monotone and interval-aligned, and with the
interval `15 minutes` a derived time of 10:07 (minute 607) floors to 10:00
(minute 600) while 10:15:00 (minute 615) floors to 10:15 itself. -/
theorem C2_binner_floor (df : Table) (interval : String) (schedule : List Rule)
    (out mtbl : Table)
    (hwf : ∀ r ∈ df.rows, r.length = df.header.length)
    (h : bin_data df interval schedule = .ok (out, mtbl)) :
    (∃ mag : Nat, parseMagnitude interval = some mag ∧
      0 < ((mag * unitMinutes interval : Nat) : ℤ) ∧
      mtbl.colD "Bin" = (mtbl.colD TIME_COLUMN).map
        (floorCell ((mag * unitMinutes interval : Nat) : ℤ))) ∧
    (∀ i t1 t2 : ℤ, 0 < i → t1 ≤ t2 → floorInt i t1 ≤ floorInt i t2) ∧
    (∀ i t : ℤ, 0 < i → i ∣ floorInt i t ∧ floorInt i t ≤ t ∧ t < floorInt i t + i) ∧
    parseMagnitude "15 minutes" = some 15 ∧ unitMinutes "15 minutes" = 1 ∧
    floorInt 15 607 = 600 ∧ floorInt 15 615 = 615 := by
  obtain ⟨mag, hmag, hpos, _, hB, _⟩ := binned_input_cols hwf h
  refine ⟨⟨mag, hmag, hpos, hB⟩, ?_, ?_, by decide, by decide, by decide, by decide⟩
  · intro i t1 t2 hi hle
    exact floorInt_mono hi hle
  · intro i t hi
    exact ⟨floorInt_dvd i t, floorInt_le t hi, lt_floorInt_add t hi⟩

set_option maxRecDepth 1000000 in
/-- Witness for C2 at a concrete run binning minutes 607 and 615 by
`15 minutes`. -/
theorem C2_binner_floor_witness :
    (∃ mag : Nat, parseMagnitude "15 minutes" = some mag ∧
      0 < ((mag * unitMinutes "15 minutes" : Nat) : ℤ) ∧
      (Table.mk ["Dataset", "Time", "Act", "Bin"]
          [[Cell.str "A", Cell.time 607, Cell.num 1, Cell.time 600],
           [Cell.str "A", Cell.time 615, Cell.num 2, Cell.time 615]]).colD "Bin" =
        ((Table.mk ["Dataset", "Time", "Act", "Bin"]
            [[Cell.str "A", Cell.time 607, Cell.num 1, Cell.time 600],
             [Cell.str "A", Cell.time 615, Cell.num 2, Cell.time 615]]).colD
              TIME_COLUMN).map
          (floorCell ((mag * unitMinutes "15 minutes" : Nat) : ℤ))) ∧
    (∀ i t1 t2 : ℤ, 0 < i → t1 ≤ t2 → floorInt i t1 ≤ floorInt i t2) ∧
    (∀ i t : ℤ, 0 < i → i ∣ floorInt i t ∧ floorInt i t ≤ t ∧ t < floorInt i t + i) ∧
    parseMagnitude "15 minutes" = some 15 ∧ unitMinutes "15 minutes" = 1 ∧
    floorInt 15 607 = 600 ∧ floorInt 15 615 = 615 :=
  C2_binner_floor binTblEx "15 minutes" [⟨"X", ["Act"], "mean"⟩]
    (Table.mk ["Dataset", "Time", "X"]
      [[Cell.str "A", Cell.time 600, Cell.num 1],
       [Cell.str "A", Cell.time 615, Cell.num 2]])
    (Table.mk ["Dataset", "Time", "Act", "Bin"]
      [[Cell.str "A", Cell.time 607, Cell.num 1, Cell.time 600],
       [Cell.str "A", Cell.time 615, Cell.num 2, Cell.time 615]])
    (by decide) (by with_unfolding_all rfl)

set_option maxRecDepth 1000000 in
/-- C7 counterexample: the stages do mutate their input.  The Reshaper
overwrites the timestamp column of its input in place (here a malformed
timestamp becomes missing inside the input table, so the final input differs
from the original), and the Binner writes a `Bin` column into its input. -/
theorem C7_counterexample :
    melt_activity_data garbageTblEx =
      .ok (Table.mk meltHeader
             [[Cell.str "A", Cell.na, Cell.num 1, Cell.na, Cell.na, Cell.na]],
           Table.mk ["Dataset", "Time", "Act[0]"]
             [[Cell.str "A", Cell.na, Cell.num 1]]) ∧
    Table.mk ["Dataset", "Time", "Act[0]"] [[Cell.str "A", Cell.na, Cell.num 1]] ≠
      garbageTblEx ∧
    bin_data
        (Table.mk ["Dataset", "Time", "Act"] [[Cell.str "A", Cell.time 7, Cell.num 1]])
        "15 minutes" [] =
      .ok (Table.mk ["Dataset", "Time", "Act", "Time"]
             [[Cell.str "A", Cell.time 7, Cell.num 1, Cell.time 0]],
           Table.mk ["Dataset", "Time", "Act", "Bin"]
             [[Cell.str "A", Cell.time 7, Cell.num 1, Cell.time 0]]) ∧
    "Bin" ∉ (["Dataset", "Time", "Act"] : List String) :=
  ⟨by decide, by decide, by decide, by decide⟩

/-- C7 amended: both stages mutate their input, and in exactly one way: on
success the input's timestamp column has been overwritten with its coerced
values; the Binner has additionally written a `Bin` column (the interval
floor of the coerced timestamp column) into the input; every other column is
unchanged. -/
theorem C7_amended_mutation (df : Table)
    (hwf : ∀ r ∈ df.rows, r.length = df.header.length) :
    (∀ m mtbl : Table, melt_activity_data df = .ok (m, mtbl) →
      mtbl.header = df.header ∧
      mtbl.colD TIME_COLUMN = (df.colD TIME_COLUMN).map coerceTime ∧
      ∀ c : String, c ≠ TIME_COLUMN → mtbl.colD c = df.colD c) ∧
    (∀ (interval : String) (schedule : List Rule) (out mtbl : Table),
      bin_data df interval schedule = .ok (out, mtbl) →
      mtbl.colD TIME_COLUMN = (df.colD TIME_COLUMN).map coerceTime ∧
      (∃ i : ℤ, 0 < i ∧ mtbl.colD "Bin" = (mtbl.colD TIME_COLUMN).map (floorCell i)) ∧
      ∀ c : String, c ≠ TIME_COLUMN → c ≠ "Bin" → mtbl.colD c = df.colD c) := by
  constructor
  · intro m mtbl h
    obtain ⟨ti, hidx, rfl⟩ := melt_ok_inv h
    exact ⟨rfl, colD_coerceTableD_time hidx hwf,
      fun c hc => colD_coerceTableD_other hidx c hc⟩
  · intro interval schedule out mtbl h
    obtain ⟨mag, hmag, hpos, hT, hB, hother⟩ := binned_input_cols hwf h
    exact ⟨hT, ⟨_, hpos, hB⟩, hother⟩

set_option maxRecDepth 1000000 in
/-- C3 counterexample: a `(device, bin)` group whose source values are all
missing makes the `sum` reducer yield a missing value, not 0 — the
`vals.size == 0` guard in `agg_func` precedes the `sum` branch. -/
theorem C3_counterexample :
    bin_data (Table.mk ["Dataset", "Time", "Act"]
        [[Cell.str "A", Cell.time 600, Cell.na]])
      "15 minutes" [⟨"S", ["Act"], "sum"⟩] =
      .ok (Table.mk ["Dataset", "Time", "S"] [[Cell.str "A", Cell.time 600, Cell.na]],
           Table.mk ["Dataset", "Time", "Act", "Bin"]
             [[Cell.str "A", Cell.time 600, Cell.na, Cell.time 600]]) ∧
    Cell.na ≠ Cell.num 0 :=
  ⟨by decide, by decide⟩

set_option maxRecDepth 1000000 in
/-- C3 amended: a `(device, bin)` group with zero contributing values yields
a missing value for every reducer — `mean`, `max`, `min`, `percent` and also
`sum` (the empty-group guard in `agg_func` returns NaN before any reducer is
consulted, so `sum` is not the empty-sum identity 0). -/
theorem C3_empty_group_missing :
    (∀ name : String, applyAgg name [] = Cell.na) ∧
    bin_data (Table.mk ["Dataset", "Time", "Act"]
        [[Cell.str "A", Cell.time 600, Cell.na]])
      "15 minutes"
      [⟨"M", ["Act"], "mean"⟩, ⟨"S", ["Act"], "sum"⟩, ⟨"Mx", ["Act"], "max"⟩,
       ⟨"Mn", ["Act"], "min"⟩, ⟨"P", ["Act"], "act_percent"⟩] =
      .ok (Table.mk ["Dataset", "Time", "M", "S", "Mx", "Mn", "P"]
             [[Cell.str "A", Cell.time 600, Cell.na, Cell.na, Cell.na, Cell.na,
               Cell.na]],
           Table.mk ["Dataset", "Time", "Act", "Bin"]
             [[Cell.str "A", Cell.time 600, Cell.na, Cell.time 600]]) :=
  ⟨fun _ => rfl, by decide⟩

set_option maxRecDepth 1000000 in
/-- C4 counterexample: the interval string `"-5 days"` is not rejected — the
digit search ignores the minus sign, parses magnitude 5, and the Binner
produces an output table, where the claim demands an `InvalidIntervalError`
and no output. -/
theorem C4_counterexample :
    bin_data (Table.mk ["Dataset", "Time", "Act"]
        [[Cell.str "A", Cell.time 0, Cell.num 1]])
      "-5 days" [⟨"X", ["Act"], "mean"⟩] =
      .ok (Table.mk ["Dataset", "Time", "X"] [[Cell.str "A", Cell.time 0, Cell.num 1]],
           Table.mk ["Dataset", "Time", "Act", "Bin"]
             [[Cell.str "A", Cell.time 0, Cell.num 1, Cell.time 0]]) ∧
    parseMagnitude "-5 days" = some 5 :=
  ⟨by with_unfolding_all rfl, by decide⟩

/-- C4 amended: the Binner raises the invalid-interval error, before any
table work, exactly for interval strings containing no digit at all; a digit
anywhere is accepted — in particular a leading minus sign is ignored, so
`"-5 days"` parses as magnitude 5 with the day unit instead of being
rejected as non-positive. -/
theorem C4_no_digit_rejected (df : Table) (schedule : List Rule) (interval : String)
    (h : ∀ c ∈ interval.data, c.isDigit = false) :
    bin_data df interval schedule =
      .error (.valueError ("Invalid interval format: " ++ interval)) ∧
    parseMagnitude "-5 days" = some 5 ∧ unitMinutes "-5 days" = 1440 := by
  refine ⟨?_, by decide, by decide⟩
  have hparse : parseMagnitude interval = none := by
    unfold parseMagnitude
    rw [findDigits_eq_none h]
    rfl
  unfold bin_data
  rw [hparse]

/-- Witness for the amended C4 at the digitless interval `"abc minutes"`. -/
theorem C4_no_digit_rejected_witness :
    bin_data binTblEx "abc minutes" [] =
      .error (.valueError ("Invalid interval format: " ++ "abc minutes")) ∧
    parseMagnitude "-5 days" = some 5 ∧ unitMinutes "-5 days" = 1440 :=
  C4_no_digit_rejected binTblEx [] "abc minutes" (by decide)

set_option maxRecDepth 1000000 in
/-- C5 counterexample: a schedule with two rules sharing `output_name = "X"`
raises nothing — aggregation runs for both rules and the merge keeps both
columns under the pandas suffixes `X_x` and `X_y`. -/
theorem C5_counterexample :
    bin_data (Table.mk ["Dataset", "Time", "Act"]
        [[Cell.str "A", Cell.time 600, Cell.num 1],
         [Cell.str "A", Cell.time 601, Cell.num 3]])
      "15 minutes" [⟨"X", ["Act"], "mean"⟩, ⟨"X", ["Act"], "sum"⟩] =
      .ok (Table.mk ["Dataset", "Time", "X_x", "X_y"]
             [[Cell.str "A", Cell.time 600, Cell.num 2, Cell.num 4]],
           Table.mk ["Dataset", "Time", "Act", "Bin"]
             [[Cell.str "A", Cell.time 600, Cell.num 1, Cell.time 600],
              [Cell.str "A", Cell.time 601, Cell.num 3, Cell.time 600]]) := by
  with_unfolding_all rfl

set_option maxRecDepth 1000000 in
/-- C5 amended: the Binner performs no duplicate-output-name check — with two
rules sharing `output_name = "X"` it runs both aggregations to completion and
returns one row per `(device, bin)` with both results, the clashing column
labels renamed by the merge to `X_x` and `X_y` (neither silently overwritten
nor an error raised). -/
theorem C5_duplicate_names_suffixed :
    (bin_data (Table.mk ["Dataset", "Time", "Act"]
        [[Cell.str "A", Cell.time 600, Cell.num 1],
         [Cell.str "A", Cell.time 601, Cell.num 3]])
      "15 minutes" [⟨"X", ["Act"], "mean"⟩, ⟨"X", ["Act"], "sum"⟩]).isOk = true ∧
    (∀ out mtbl : Table,
      bin_data (Table.mk ["Dataset", "Time", "Act"]
          [[Cell.str "A", Cell.time 600, Cell.num 1],
           [Cell.str "A", Cell.time 601, Cell.num 3]])
        "15 minutes" [⟨"X", ["Act"], "mean"⟩, ⟨"X", ["Act"], "sum"⟩] =
        .ok (out, mtbl) →
      out.header = ["Dataset", "Time", "X_x", "X_y"] ∧
      out.rows = [[Cell.str "A", Cell.time 600, Cell.num 2, Cell.num 4]]) := by
  constructor
  · rw [C5_counterexample]
    rfl
  · intro out mtbl h
    rw [C5_counterexample] at h
    simp only [Except.ok.injEq, Prod.mk.injEq] at h
    rw [← h.1]
    exact ⟨rfl, rfl⟩

/-- C10: how the Binner actually reads an interval string.  The magnitude is
the first unsigned digit run found anywhere in the string (any prefix of
non-digit characters — a minus sign included — is skipped); the unit is
chosen by substring containment with `day` before `hour`, everything else
falling through to minutes; so the unrecognized unit `"15 seconds"` is
silently binned in minutes, and `bin_data` cannot distinguish `"15 seconds"`
from `"15 minutes"` at all. -/
theorem C10_interval_parse :
    (∀ (pre : List Char) (d : Char) (rest : List Char),
      (∀ c ∈ pre, c.isDigit = false) → d.isDigit = true →
      findDigits (pre ++ d :: rest) = some (d :: rest.takeWhile Char.isDigit)) ∧
    (∀ s : List Char, findDigits ('-' :: s) = findDigits s) ∧
    (∀ interval : String,
      (hasInfixChars interval.data "day".data = true → unitMinutes interval = 1440) ∧
      (hasInfixChars interval.data "day".data = false →
        hasInfixChars interval.data "hour".data = true → unitMinutes interval = 60) ∧
      (hasInfixChars interval.data "day".data = false →
        hasInfixChars interval.data "hour".data = false → unitMinutes interval = 1)) ∧
    parseMagnitude "15 seconds" = some 15 ∧ unitMinutes "15 seconds" = 1 ∧
    (∀ (df : Table) (schedule : List Rule),
      bin_data df "15 seconds" schedule = bin_data df "15 minutes" schedule) := by
  refine ⟨?_, ?_, ?_, by decide, by decide, ?_⟩
  · intro pre d rest hpre hd
    induction pre with
    | nil =>
      simp only [List.nil_append, findDigits, hd, if_true]
    | cons c cs ih =>
      have hc := hpre c (List.mem_cons_self c cs)
      simp only [List.cons_append, findDigits, hc, Bool.false_eq_true, if_false]
      exact ih (fun x hx => hpre x (List.mem_cons_of_mem c hx))
  · intro s
    simp only [findDigits, show ('-').isDigit = false from rfl, Bool.false_eq_true,
      if_false]
  · intro interval
    refine ⟨?_, ?_, ?_⟩
    · intro hday
      unfold unitMinutes
      rw [hday]
      rfl
    · intro hday hhour
      unfold unitMinutes
      rw [hday, hhour]
      rfl
    · intro hday hhour
      unfold unitMinutes
      rw [hday, hhour]
      rfl
  · intro df schedule
    have h1 : parseMagnitude "15 seconds" = some 15 := by decide
    have h2 : parseMagnitude "15 minutes" = some 15 := by decide
    have h3 : unitMinutes "15 seconds" = 1 := by decide
    have h4 : unitMinutes "15 minutes" = 1 := by decide
    unfold bin_data
    rw [h1, h2, h3, h4]

/-- Witness for C10: the parts with hypotheses, applied at `"-5 days"` and a
concrete table. -/
theorem C10_interval_parse_witness :
    findDigits (['-'] ++ '5' :: (" days".data)) =
      some ('5' :: ((" days".data).takeWhile Char.isDigit)) ∧
    bin_data binTblEx "15 seconds" [] = bin_data binTblEx "15 minutes" [] :=
  ⟨C10_interval_parse.1 ['-'] '5' (" days".data) (by decide) (by decide),
   C10_interval_parse.2.2.2.2.2 binTblEx []⟩

/-- C6 counterexample: the Reshaper has an error condition besides a missing
timestamp column — with the timestamp column present but the device column
absent, it fails with a `KeyError` on the device column. -/
theorem C6_counterexample :
    melt_activity_data (Table.mk ["Time", "Act[0]"] [[Cell.time 0, Cell.num 1]]) =
      .error (.keyError DELINEATING_COL) ∧
    TIME_COLUMN ∈ (["Time", "Act[0]"] : List String) :=
  ⟨by decide, by decide⟩

set_option maxRecDepth 100000 in
/-- Witness for the amended C7 at a concrete table. -/
theorem C7_amended_mutation_witness :
    (∀ m mtbl : Table, melt_activity_data garbageTblEx = .ok (m, mtbl) →
      mtbl.header = garbageTblEx.header ∧
      mtbl.colD TIME_COLUMN = (garbageTblEx.colD TIME_COLUMN).map coerceTime ∧
      ∀ c : String, c ≠ TIME_COLUMN → mtbl.colD c = garbageTblEx.colD c) ∧
    (∀ (interval : String) (schedule : List Rule) (out mtbl : Table),
      bin_data garbageTblEx interval schedule = .ok (out, mtbl) →
      mtbl.colD TIME_COLUMN = (garbageTblEx.colD TIME_COLUMN).map coerceTime ∧
      (∃ i : ℤ, 0 < i ∧ mtbl.colD "Bin" = (mtbl.colD TIME_COLUMN).map (floorCell i)) ∧
      ∀ c : String, c ≠ TIME_COLUMN → c ≠ "Bin" →
        mtbl.colD c = garbageTblEx.colD c) :=
  C7_amended_mutation garbageTblEx (by decide)


set_option maxRecDepth 1000000 in
/-- C8 counterexample: with an empty schedule the Binner returns a copy of the
(mutated) input — one row per input row — so a table with two rows in one
`(device, bin)` pair yields two output rows for that single pair, violating
one-row-per-pair. -/
theorem C8_counterexample :
    bin_data (Table.mk ["Dataset", "Time", "Act"]
        [[Cell.str "A", Cell.time 600, Cell.num 1],
         [Cell.str "A", Cell.time 601, Cell.num 3]])
      "15 minutes" [] =
      .ok (Table.mk ["Dataset", "Time", "Act", "Time"]
             [[Cell.str "A", Cell.time 600, Cell.num 1, Cell.time 600],
              [Cell.str "A", Cell.time 601, Cell.num 3, Cell.time 600]],
           Table.mk ["Dataset", "Time", "Act", "Bin"]
             [[Cell.str "A", Cell.time 600, Cell.num 1, Cell.time 600],
              [Cell.str "A", Cell.time 601, Cell.num 3, Cell.time 600]]) ∧
    (binPairs (Table.mk ["Dataset", "Time", "Act", "Bin"]
        [[Cell.str "A", Cell.time 600, Cell.num 1, Cell.time 600],
         [Cell.str "A", Cell.time 601, Cell.num 3, Cell.time 600]])).length = 1 ∧
    ([[Cell.str "A", Cell.time 600, Cell.num 1, Cell.time 600],
      [Cell.str "A", Cell.time 601, Cell.num 3, Cell.time 600]] :
        List (List Cell)).length = 2 :=
  ⟨by decide, by decide, by decide⟩

/-- C8 (amended): for every long table, parseable nonzero interval, and
NONEMPTY schedule whose source columns exist, the Binner succeeds and its
output has exactly one row per distinct `(device, bin)` pair of the binned
input — the rows are exactly the pairs in order, each carrying per rule the
group's aggregate — and a pair whose group contributes no values for one rule
still appears, with a missing value in that rule's position.  (With an empty
schedule the output is a copy of the input instead, one row per input row.) -/
theorem C8_one_row_per_pair (df : Table) (interval : String) (schedule : List Rule)
    (mag ti di : Nat)
    (hmag : parseMagnitude interval = some mag)
    (hti : idxOf? TIME_COLUMN df.header = some ti)
    (hne0 : ¬((mag * unitMinutes interval : Nat) : ℤ) = 0)
    (hdi : idxOf? DELINEATING_COL (binnedInput df interval mag).header = some di)
    (hcols : ∀ rule ∈ schedule, ∀ c ∈ rule.columns,
      c ∈ (binnedInput df interval mag).header)
    (hsch : schedule ≠ []) :
    ∃ out : Table,
      bin_data df interval schedule = .ok (out, binnedInput df interval mag) ∧
      out.rows = (binPairs (binnedInput df interval mag)).map
        (fun p => p.1 :: p.2 :: schedule.map
          (fun rule => ruleRowVal (binnedInput df interval mag) di
            ((idxOf? "Bin" (binnedInput df interval mag).header).getD 0) rule p)) ∧
      out.rows.map (fun r => (cellAt r 0, cellAt r 1)) =
        binPairs (binnedInput df interval mag) ∧
      (binPairs (binnedInput df interval mag)).Nodup ∧
      (∀ p : Cell × Cell, ∀ rule ∈ schedule,
        groupVals (rule.columns.map (fun c =>
            (idxOf? c (binnedInput df interval mag).header).getD 0))
          ((binnedInput df interval mag).rows.filter (fun r =>
            cellAt r di == p.1 &&
            cellAt r ((idxOf? "Bin" (binnedInput df interval mag).header).getD 0) == p.2))
          = [] →
        ruleRowVal (binnedInput df interval mag) di
          ((idxOf? "Bin" (binnedInput df interval mag).header).getD 0) rule p =
          Cell.na) := by
  obtain ⟨hdrTail, hlen, hok⟩ := bin_ok_shape hmag hti hne0 hdi hcols hsch
  refine ⟨_, hok, rfl, ?_, ?_, ?_⟩
  · rw [List.map_map]
    exact (List.map_congr_left (fun p _ => rfl)).trans (List.map_id _)
  · exact validPairs_nodup _ _ _
  · intro p rule _ hgv
    unfold ruleRowVal
    rw [hgv]
    rfl

set_option maxRecDepth 1000000 in
/-- Witness for the amended C8 at a concrete two-row, one-pair table with a
one-rule schedule. -/
theorem C8_one_row_per_pair_witness :
    ∃ out : Table,
      bin_data (Table.mk ["Dataset", "Time", "Act"]
          [[Cell.str "A", Cell.time 600, Cell.num 1],
           [Cell.str "A", Cell.time 601, Cell.num 3]]) "15 minutes"
          [⟨"X", ["Act"], "sum"⟩] =
        .ok (out, binnedInput (Table.mk ["Dataset", "Time", "Act"]
          [[Cell.str "A", Cell.time 600, Cell.num 1],
           [Cell.str "A", Cell.time 601, Cell.num 3]]) "15 minutes" 15) ∧
      out.rows = (binPairs (binnedInput (Table.mk ["Dataset", "Time", "Act"]
          [[Cell.str "A", Cell.time 600, Cell.num 1],
           [Cell.str "A", Cell.time 601, Cell.num 3]]) "15 minutes" 15)).map
        (fun p => p.1 :: p.2 :: ([⟨"X", ["Act"], "sum"⟩] : List Rule).map
          (fun rule => ruleRowVal (binnedInput (Table.mk ["Dataset", "Time", "Act"]
              [[Cell.str "A", Cell.time 600, Cell.num 1],
               [Cell.str "A", Cell.time 601, Cell.num 3]]) "15 minutes" 15) 0
            ((idxOf? "Bin" (binnedInput (Table.mk ["Dataset", "Time", "Act"]
              [[Cell.str "A", Cell.time 600, Cell.num 1],
               [Cell.str "A", Cell.time 601, Cell.num 3]]) "15 minutes" 15).header).getD 0)
            rule p)) ∧
      out.rows.map (fun r => (cellAt r 0, cellAt r 1)) =
        binPairs (binnedInput (Table.mk ["Dataset", "Time", "Act"]
          [[Cell.str "A", Cell.time 600, Cell.num 1],
           [Cell.str "A", Cell.time 601, Cell.num 3]]) "15 minutes" 15) ∧
      (binPairs (binnedInput (Table.mk ["Dataset", "Time", "Act"]
          [[Cell.str "A", Cell.time 600, Cell.num 1],
           [Cell.str "A", Cell.time 601, Cell.num 3]]) "15 minutes" 15)).Nodup ∧
      (∀ p : Cell × Cell, ∀ rule ∈ ([⟨"X", ["Act"], "sum"⟩] : List Rule),
        groupVals (rule.columns.map (fun c =>
            (idxOf? c (binnedInput (Table.mk ["Dataset", "Time", "Act"]
              [[Cell.str "A", Cell.time 600, Cell.num 1],
               [Cell.str "A", Cell.time 601, Cell.num 3]]) "15 minutes" 15).header).getD 0))
          ((binnedInput (Table.mk ["Dataset", "Time", "Act"]
              [[Cell.str "A", Cell.time 600, Cell.num 1],
               [Cell.str "A", Cell.time 601, Cell.num 3]]) "15 minutes" 15).rows.filter
            (fun r => cellAt r 0 == p.1 &&
              cellAt r ((idxOf? "Bin" (binnedInput (Table.mk ["Dataset", "Time", "Act"]
                [[Cell.str "A", Cell.time 600, Cell.num 1],
                 [Cell.str "A", Cell.time 601, Cell.num 3]]) "15 minutes" 15).header).getD 0)
                == p.2)) = [] →
        ruleRowVal (binnedInput (Table.mk ["Dataset", "Time", "Act"]
            [[Cell.str "A", Cell.time 600, Cell.num 1],
             [Cell.str "A", Cell.time 601, Cell.num 3]]) "15 minutes" 15) 0
          ((idxOf? "Bin" (binnedInput (Table.mk ["Dataset", "Time", "Act"]
            [[Cell.str "A", Cell.time 600, Cell.num 1],
             [Cell.str "A", Cell.time 601, Cell.num 3]]) "15 minutes" 15).header).getD 0)
          rule p = Cell.na) :=
  C8_one_row_per_pair (Table.mk ["Dataset", "Time", "Act"]
      [[Cell.str "A", Cell.time 600, Cell.num 1],
       [Cell.str "A", Cell.time 601, Cell.num 3]]) "15 minutes"
    [⟨"X", ["Act"], "sum"⟩] 15 1 0 (by decide) (by decide) (by decide) (by decide)
    (by decide) (by decide)

/-- C6 (amended): the Reshaper fails with a schema error (`KeyError`) when the
timestamp column is absent, and ALSO when the device-identifier column is
absent — missing timestamps are not its only error condition; otherwise
malformed values become missing values, not failures (concrete run shown).
The Binner fails with a schema error naming a missing column whenever some
rule references a source column absent from its input, provided at least one
`(device, bin)` group exists (the lookup happens inside the per-group
aggregation). -/
theorem C6_schema_errors :
    (∀ df : Table, TIME_COLUMN ∉ df.header →
      melt_activity_data df = .error (.keyError TIME_COLUMN)) ∧
    (∀ (df : Table) (ti : Nat), idxOf? TIME_COLUMN df.header = some ti →
      DELINEATING_COL ∉ df.header →
      melt_activity_data df = .error (.keyError DELINEATING_COL)) ∧
    melt_activity_data garbageTblEx =
      .ok (Table.mk meltHeader
             [[Cell.str "A", Cell.na, Cell.num 1, Cell.na, Cell.na, Cell.na]],
           Table.mk ["Dataset", "Time", "Act[0]"]
             [[Cell.str "A", Cell.na, Cell.num 1]]) ∧
    (∀ (df : Table) (interval : String) (schedule : List Rule) (mag ti di : Nat),
      parseMagnitude interval = some mag →
      idxOf? TIME_COLUMN df.header = some ti →
      ¬((mag * unitMinutes interval : Nat) : ℤ) = 0 →
      idxOf? DELINEATING_COL (binnedInput df interval mag).header = some di →
      (∃ rule ∈ schedule, ∃ c ∈ rule.columns,
        c ∉ (binnedInput df interval mag).header) →
      binPairs (binnedInput df interval mag) ≠ [] →
      ∃ c', c' ∉ (binnedInput df interval mag).header ∧
        bin_data df interval schedule = .error (.keyError c')) := by
  refine ⟨fun df h => melt_err_no_time h,
    fun df ti hti h => melt_err_no_dataset hti h, by decide, ?_⟩
  intro df interval schedule mag ti di hmag hti hne0 hdi hmiss hpne
  have hgd : (idxOf? DELINEATING_COL (binnedInput df interval mag).header).getD 0 = di := by
    rw [hdi]
    rfl
  have hpne' : validPairs (binnedInput df interval mag).rows di
      ((idxOf? "Bin" (binnedInput df interval mag).header).getD 0) ≠ [] := by
    unfold binPairs at hpne
    rwa [hgd] at hpne
  have hmiss' : ∃ rule ∈ schedule, ∃ c ∈ rule.columns,
      idxOf? c (binnedInput df interval mag).header = none := by
    obtain ⟨r, hr, c, hc, hcn⟩ := hmiss
    exact ⟨r, hr, c, hc, idxOf?_eq_none_iff.mpr hcn⟩
  obtain ⟨c', hn', he⟩ := schedule_error hdi hpne' hmiss'
  refine ⟨c', idxOf?_eq_none_iff.mp hn', ?_⟩
  unfold bin_data
  rw [hmag, coerceTimeCol_ok hti]
  dsimp only
  rw [if_neg hne0]
  rw [← binnedInput_eq df interval mag]
  rw [he]

set_option maxRecDepth 1000000 in
/-- Witness for the amended C6: a table without `Time` fails with
`KeyError Time`; one with `Time` but no `Dataset` fails with
`KeyError Dataset`; the Binner on a one-row table with a rule naming a
nonexistent column fails with a `KeyError` for a missing column. -/
theorem C6_schema_errors_witness :
    melt_activity_data (Table.mk ["T2", "Act[0]"] [[Cell.time 0, Cell.num 1]]) =
      .error (.keyError TIME_COLUMN) ∧
    melt_activity_data (Table.mk ["Time", "Act[0]"] [[Cell.time 0, Cell.num 1]]) =
      .error (.keyError DELINEATING_COL) ∧
    (∃ c', c' ∉ (binnedInput (Table.mk ["Dataset", "Time", "Act"]
        [[Cell.str "A", Cell.time 600, Cell.num 1]]) "15 minutes" 15).header ∧
      bin_data (Table.mk ["Dataset", "Time", "Act"]
          [[Cell.str "A", Cell.time 600, Cell.num 1]]) "15 minutes"
          [⟨"X", ["Nope"], "mean"⟩] = .error (.keyError c')) :=
  ⟨C6_schema_errors.1 _ (by decide),
   C6_schema_errors.2.1 _ 0 (by decide) (by decide),
   C6_schema_errors.2.2.2 _ "15 minutes" _ 15 1 0 (by decide) (by decide) (by decide)
     (by decide) ⟨⟨"X", ["Nope"], "mean"⟩, by decide, "Nope", by decide, by decide⟩
     (by decide)⟩

/-- C9: binning an already-binned table at the same interval with `mean`
reducers over single-valued groups reproduces the same values: every input
row's `(device, time, value-per-rule)` tuple reappears as an output row, and
there are exactly as many output rows as input rows. -/
theorem C9_idempotent (df : Table) (interval : String) (schedule : List Rule)
    (mag ti di : Nat)
    (hwf : ∀ r ∈ df.rows, r.length = df.header.length)
    (hmag : parseMagnitude interval = some mag)
    (hti : idxOf? TIME_COLUMN df.header = some ti)
    (hdi : idxOf? DELINEATING_COL df.header = some di)
    (hne0 : ¬((mag * unitMinutes interval : Nat) : ℤ) = 0)
    (hBnot : "Bin" ∉ df.header)
    (htime : ∀ r ∈ df.rows, ∃ t : ℤ, cellAt r ti = Cell.time t ∧
      floorInt ((mag * unitMinutes interval : Nat) : ℤ) t = t)
    (hdev : ∀ r ∈ df.rows, cellAt r di ≠ Cell.na)
    (hkeys : (df.rows.map (fun r => (cellAt r di, cellAt r ti))).Nodup)
    (hsch : schedule ≠ [])
    (hrules : ∀ rule ∈ schedule, rule.summarize = "mean" ∧
      ∃ ci : Nat, idxOf? (rule.columns.headD "") df.header = some ci ∧
        rule.columns = [rule.columns.headD ""] ∧
        ∀ r ∈ df.rows, ∃ q : ℚ, cellAt r ci = Cell.num q) :
    ∃ out : Table,
      bin_data df interval schedule = .ok (out, binnedInput df interval mag) ∧
      out.rows.length = df.rows.length ∧
      ∀ r ∈ df.rows,
        (cellAt r di :: cellAt r ti :: schedule.map (fun rule =>
          cellAt r ((idxOf? (rule.columns.headD "") df.header).getD 0))) ∈ out.rows := by
  have hlt_ti : ti < df.header.length := idxOf?_lt_length hti
  have hcoerce : coerceTableD df = df := by
    unfold coerceTableD coerceRows
    rw [hti]
    show Table.mk df.header (df.rows.map (fun r => r.set ti (coerceTime (cellAt r ti)))) = df
    have hrows : df.rows.map (fun r => r.set ti (coerceTime (cellAt r ti))) = df.rows := by
      refine (List.map_congr_left ?_).trans (List.map_id _)
      intro r hr
      obtain ⟨t, ht, -⟩ := htime r hr
      show r.set ti (coerceTime (cellAt r ti)) = r
      rw [ht]
      show r.set ti (Cell.time t) = r
      rw [← ht]
      exact set_cellAt_self r ti (by rw [hwf r hr]; exact hlt_ti)
    rw [hrows]
  have hB : binnedInput df interval mag =
      Table.mk (df.header ++ ["Bin"]) (df.rows.map (fun r => r ++ [cellAt r ti])) := by
    rw [binnedInput_eq df interval mag, hcoerce]
    have hgd : (idxOf? TIME_COLUMN df.header).getD 0 = ti := by
      rw [hti]
      rfl
    rw [hgd]
    have hvals : df.rows.map (fun r => floorCell ((mag * unitMinutes interval : Nat) : ℤ)
        (cellAt r ti)) = df.rows.map (fun r => cellAt r ti) :=
      List.map_congr_left (fun r hr => by
        obtain ⟨t, ht, hfl⟩ := htime r hr
        rw [ht]
        show Cell.time (floorInt _ t) = Cell.time t
        rw [hfl])
    rw [hvals]
    unfold Table.setCol
    rw [idxOf?_eq_none_iff.mpr hBnot]
    dsimp only
    rw [zip_map_append (fun r => cellAt r ti) df.rows]
  have hdi' : idxOf? DELINEATING_COL (binnedInput df interval mag).header = some di := by
    rw [hB]
    exact idxOf?_append_of_some _ hdi
  have hgdd : (idxOf? DELINEATING_COL (binnedInput df interval mag).header).getD 0 = di := by
    rw [hdi']
    rfl
  have hbi : idxOf? "Bin" (binnedInput df interval mag).header =
      some df.header.length := by
    rw [hB]
    show idxOf? "Bin" (df.header ++ ["Bin"]) = some df.header.length
    rw [idxOf?_append_of_not_mem _ hBnot]
    simp [idxOf?]
  have hgdbi : (idxOf? "Bin" (binnedInput df interval mag).header).getD 0 =
      df.header.length := by
    rw [hbi]
    rfl
  have hcols : ∀ rule ∈ schedule, ∀ c ∈ rule.columns,
      c ∈ (binnedInput df interval mag).header := by
    intro rule hrule c hc
    obtain ⟨-, ci, hci, hcols1, -⟩ := hrules rule hrule
    rw [hcols1] at hc
    have hceq : c = rule.columns.headD "" := by simpa using hc
    rw [hB, hceq]
    apply List.mem_append_left
    by_contra hno
    rw [idxOf?_eq_none_iff.mpr hno] at hci
    exact Option.noConfusion hci
  have hkeysB : (binnedInput df interval mag).rows.map
      (fun x => (cellAt x di, cellAt x df.header.length)) =
      df.rows.map (fun r => (cellAt r di, cellAt r ti)) := by
    rw [hB]
    dsimp only
    rw [List.map_map]
    refine List.map_congr_left ?_
    intro r hr
    have hrl : r.length = df.header.length := hwf r hr
    show (cellAt (r ++ [cellAt r ti]) di, cellAt (r ++ [cellAt r ti]) df.header.length)
      = (cellAt r di, cellAt r ti)
    rw [← hrl, cellAt_append_len,
      cellAt_append_lt (by rw [hrl]; exact idxOf?_lt_length hdi)]
  have hnodB : ((binnedInput df interval mag).rows.map
      (fun x => (cellAt x di, cellAt x df.header.length))).Nodup := by
    rw [hkeysB]
    exact hkeys
  have hvp : validPairs (binnedInput df interval mag).rows di
      ((idxOf? "Bin" (binnedInput df interval mag).header).getD 0) =
      sortBy pairLe (df.rows.map (fun r => (cellAt r di, cellAt r ti))) := by
    unfold validPairs
    rw [hgdbi, hkeysB]
    rw [List.filter_eq_self.mpr ?_, List.dedup_eq_self.mpr hkeys]
    intro p hp
    obtain ⟨r, hr, rfl⟩ := List.mem_map.mp hp
    obtain ⟨t, ht, -⟩ := htime r hr
    simp [ht, hdev r hr]
  obtain ⟨hdrTail, hlen, hok⟩ := bin_ok_shape hmag hti hne0 hdi' hcols hsch
  refine ⟨_, hok, ?_, ?_⟩
  · show ((binPairs (binnedInput df interval mag)).map _).length = df.rows.length
    rw [List.length_map]
    unfold binPairs
    rw [hgdd, hvp, (sortBy_perm pairLe _).length_eq, List.length_map]
  · intro r hr
    have hrl : r.length = df.header.length := hwf r hr
    have hpmem : (cellAt r di, cellAt r ti) ∈ binPairs (binnedInput df interval mag) := by
      unfold binPairs
      rw [hgdd, hvp, mem_sortBy]
      exact List.mem_map_of_mem _ hr
    refine List.mem_map.mpr ⟨(cellAt r di, cellAt r ti), hpmem, ?_⟩
    dsimp only
    have haB : (r ++ [cellAt r ti]) ∈ (binnedInput df interval mag).rows := by
      rw [hB]
      exact List.mem_map_of_mem _ hr
    have hak1 : cellAt (r ++ [cellAt r ti]) di = cellAt r di :=
      cellAt_append_lt (by rw [hrl]; exact idxOf?_lt_length hdi)
    have hak2 : cellAt (r ++ [cellAt r ti]) df.header.length = cellAt r ti := by
      rw [← hrl, cellAt_append_len]
    have hmap : schedule.map (fun rule => ruleRowVal (binnedInput df interval mag) di
        ((idxOf? "Bin" (binnedInput df interval mag).header).getD 0) rule
        (cellAt r di, cellAt r ti)) =
        schedule.map (fun rule =>
          cellAt r ((idxOf? (rule.columns.headD "") df.header).getD 0)) := by
      refine List.map_congr_left ?_
      intro rule hrule
      obtain ⟨hsum, ci, hci, hcols1, hq⟩ := hrules rule hrule
      obtain ⟨q, hq'⟩ := hq r hr
      have hcilt : ci < r.length := by
        rw [hrl]
        exact idxOf?_lt_length hci
      have hidxs : rule.columns.map
          (fun c => (idxOf? c (binnedInput df interval mag).header).getD 0) = [ci] := by
        rw [hcols1]
        show [(idxOf? (rule.columns.headD "")
          (binnedInput df interval mag).header).getD 0] = [ci]
        rw [hB]
        show [(idxOf? (rule.columns.headD "") (df.header ++ ["Bin"])).getD 0] = [ci]
        rw [idxOf?_append_of_some _ hci]
        rfl
      have hfil := filter_fix_eq_singleton (fun x => cellAt x di)
        (fun x => cellAt x df.header.length) hnodB haB
      dsimp only at hfil
      rw [hak1, hak2] at hfil
      have hgv : groupVals [ci] [r ++ [cellAt r ti]] = [q] := by
        unfold groupVals
        simp [cellAt_append_lt hcilt, hq']
      unfold ruleRowVal
      rw [hgdbi, hidxs]
      dsimp only
      rw [hfil, hgv, hsum, applyAgg_mean_singleton, hci]
      show Cell.num q = cellAt r ci
      rw [hq']
    rw [hmap]

set_option maxRecDepth 1000000 in
/-- Witness for C9 at a one-row table already floored to its 15-minute bin. -/
theorem C9_idempotent_witness :
    ∃ out : Table,
      bin_data (Table.mk ["Dataset", "Time", "Act"]
          [[Cell.str "A", Cell.time 600, Cell.num 2]]) "15 minutes"
          [⟨"X", ["Act"], "mean"⟩] =
        .ok (out, binnedInput (Table.mk ["Dataset", "Time", "Act"]
          [[Cell.str "A", Cell.time 600, Cell.num 2]]) "15 minutes" 15) ∧
      out.rows.length = ([[Cell.str "A", Cell.time 600, Cell.num 2]] :
        List (List Cell)).length ∧
      ∀ r ∈ ([[Cell.str "A", Cell.time 600, Cell.num 2]] : List (List Cell)),
        (cellAt r 0 :: cellAt r 1 :: ([⟨"X", ["Act"], "mean"⟩] : List Rule).map
          (fun rule => cellAt r ((idxOf? (rule.columns.headD "")
            (["Dataset", "Time", "Act"] : List String)).getD 0))) ∈ out.rows :=
  C9_idempotent (Table.mk ["Dataset", "Time", "Act"]
      [[Cell.str "A", Cell.time 600, Cell.num 2]]) "15 minutes"
    [⟨"X", ["Act"], "mean"⟩] 15 1 0
    (by decide) (by decide) (by decide) (by decide) (by decide) (by decide)
    (by
      intro r hr
      simp at hr
      subst hr
      exact ⟨600, rfl, by decide⟩)
    (by decide) (by decide) (by decide)
    (by
      intro rule hrule
      simp at hrule
      subst hrule
      exact ⟨rfl, 2, by decide, by decide, by
        intro r hr
        simp at hr
        subst hr
        exact ⟨2, rfl⟩⟩)

end PyMerge
